import Mathlib

/-!
# chart-generator: the CSV-to-series pipeline of `main.go`

A shallow embedding of the data pipeline of `main.go` (parsers, aggregator and
series builders) together with the properties stated for it.

Modelling conventions.

* A Go `string` is a Lean `String`; a `[][]string` is a `List (List String)`.
* `float64` is an explicit model of IEEE-754 binary64 (`float64` below): every
  finite binary64 value is an integer multiple of `2^-1074`, so a finite value
  is stored as a sign and that integer.  Addition rounds to nearest, ties to
  even, and overflows to an infinity.
* `int64` values are mathematical integers (`Int`); the only producer of them,
  `ParseInt` with bit size 32, keeps them far inside the 64-bit range.
* `map[string]float64` is a list of key/value pairs with distinct keys, kept in
  insertion order.  Go iterates a map in an unspecified order, so a function
  that ranges over a map takes the order of iteration as an argument.
* `log.Fatal` and run-time panics end the run; a function that can reach one
  returns `Except Fault _`.
* `strconv.ParseFloat` is an argument of `parseSpendingCSV`, so that what is
  proved of the parser holds of any implementation of it; `ParseFloat` below is
  the library function, used where a concrete input is evaluated.
  `strconv.ParseInt` is modelled in full for base 10.
* `main` is a function of what lies outside the program: the files, the order
  of map iteration, and the outcome of the calls to the renderer and to
  `os.Remove`.  It returns the images written and the fault, if any.
-/

namespace ChartGenerator

/-! ## binary64 -/

/-- A binary64 value.  `fin neg n` is the finite value `(-1)^neg * n * 2^-1074`
(so `fin true 0` is negative zero); it is a binary64 value when `n` has at most
53 significant bits and `n * 2^-1074 < 2^1024`. -/
inductive float64 where
  | nan
  | inf (neg : Bool)
  | fin (neg : Bool) (n : Nat)
deriving DecidableEq, Repr

namespace float64

/-- The value 1 counted in units of `2^-1074`, the spacing of the subnormals. -/
@[irreducible] def unit : Nat := 2 ^ 1074

/-- The value `2^1024` counted in units: a rounded magnitude from here on
overflows. -/
@[irreducible] def limit : Nat := 2 ^ 2098

/-- Binary digits of `n`, counted with at most `fuel` halvings. -/
def bitLenAux : Nat → Nat → Nat
  | 0, _ => 0
  | fuel + 1, n => if n = 0 then 0 else bitLenAux fuel (n / 2) + 1

/-- Number of binary digits of `n` (0 for 0). -/
def bitLen (n : Nat) : Nat := bitLenAux n n

/-- Number of low-order bits of `n` that do not fit in a 53-bit significand. -/
def excess (n : Nat) : Nat := bitLen n - 53

/-- The quotient `num / den` rounded to an integer, to nearest, ties to even. -/
def roundHalfEven (num den : Nat) : Nat :=
  let q := num / den
  let r := num % den
  if den < 2 * r ∨ (2 * r = den ∧ q % 2 = 1) then q + 1 else q

/-- The quotient `num / den` rounded to 53 significant bits, to nearest, ties to
even (the result is an integer: the unit is the spacing of the subnormals). -/
def roundRatio (num den : Nat) : Nat :=
  let sh := excess (num / den)
  roundHalfEven num (den * 2 ^ sh) * 2 ^ sh

/-- Rounding of an integer number of units to 53 significant bits. -/
def roundNat (n : Nat) : Nat := roundRatio n 1

/-- A rounded magnitude with its sign; magnitudes from `2^1024` on overflow. -/
def pack (neg : Bool) (n : Nat) : float64 :=
  if n < limit then fin neg n else inf neg

/-- The `+` of Go on `float64`: IEEE-754 addition, round to nearest even. -/
def add : float64 → float64 → float64
  | nan, _ => nan
  | _, nan => nan
  | inf a, inf b => if a = b then inf a else nan
  | inf a, fin _ _ => inf a
  | fin _ _, inf b => inf b
  | fin a m, fin b n =>
    if a = b then pack a (roundNat (m + n))
    else if m = n then fin false 0
    else if n < m then pack a (roundNat (m - n))
    else pack b (roundNat (n - m))

/-- The binary64 value of a whole number (exact when `|k| ≤ 2^53`). -/
def ofInt (k : Int) : float64 :=
  pack (decide (k < 0)) (roundNat (k.natAbs * unit))

/-- The whole part of a finite value, with its sign (0 for NaN and infinities). -/
def toInt : float64 → Int
  | fin neg n => if neg then -((n / unit : Nat) : Int) else ((n / unit : Nat) : Int)
  | _ => 0

end float64

/-! ## Data model -/

/-- The `payment` struct: one spending line item. -/
structure payment where
  category : String
  cost : float64
deriving DecidableEq, Repr

/-- The `paymentGroup` struct: one income group (`cost` is an `int64`). -/
structure paymentGroup where
  category : String
  cost : Int
deriving DecidableEq, Repr

/-- A `map[string]float64`: pairs with distinct keys, in insertion order. -/
abbrev GoMap := List (String × float64)

namespace GoMap

/-- The comma-ok lookup `v, ok := m[k]`. -/
def lookup : GoMap → String → Option float64
  | [], _ => none
  | (k', v) :: rest, k => if k' = k then some v else lookup rest k

/-- The assignment `m[k] = v`: replaces the value of an existing key, otherwise
adds the key. -/
def store : GoMap → String → float64 → GoMap
  | [], k, v => [(k, v)]
  | (k', v') :: rest, k, v => if k' = k then (k', v) :: rest else (k', v') :: store rest k v

/-- The keys of the map. -/
def keys (m : GoMap) : List String := m.map Prod.fst

end GoMap

/-! ## Aggregator -/

/-- One iteration of the loop of `groupPaymentsByCategory`. -/
def groupStep (groupedTotals : GoMap) (p : payment) : GoMap :=
  match groupedTotals.lookup p.category with
  | none => groupedTotals.store p.category p.cost
  | some currentTotal => groupedTotals.store p.category (currentTotal.add p.cost)

/-- The function `groupPaymentsByCategory` of `main.go`. -/
def groupPaymentsByCategory (payments : List payment) : GoMap :=
  payments.foldl groupStep []

/-! ## Faults -/

deriving instance DecidableEq for Except

/-- The ways a run of the program ends abnormally. -/
inductive Fault where
  /-- The call `log.Fatal(msg)`: the message is logged and the process exits with status 1. -/
  | fatal (msg : String)
  /-- The run-time panic of `row[index]` on a row of `length` fields. -/
  | indexOutOfRange (index length : Nat)
  /-- The run-time panic of `csv[low:]` on a slice of `length` rows. -/
  | sliceBounds (low length : Nat)
deriving DecidableEq, Repr

/-- The index expression `row[i]`. -/
def index (row : List String) (i : Nat) : Except Fault String :=
  match row[i]? with
  | some field => .ok field
  | none => .error (.indexOutOfRange i row.length)

/-! ## Spending parser -/

/-- The loop of `parseSpendingCSV`; `payments` is the slice built so far.  The
library function `strconv.ParseFloat(_, 64)` is the argument `parseFloat`
(`none` when it returns an error). -/
def parseSpendingLoop (parseFloat : String → Option float64) :
    List payment → List (List String) → Except Fault (List payment)
  | payments, [] => .ok payments
  | payments, row :: rest =>
    match index row 1 with
    | .error e => .error e
    | .ok field1 =>
      match parseFloat field1 with
      | none => .error (.fatal "Error parsing cost")
      | some cost =>
        match index row 2 with
        | .error e => .error e
        | .ok field2 =>
          parseSpendingLoop parseFloat (payments ++ [{ category := field2, cost := cost }]) rest

/-- The function `parseSpendingCSV` of `main.go`. -/
def parseSpendingCSV (parseFloat : String → Option float64) (csv : List (List String)) :
    Except Fault (List payment) :=
  match csv with
  | [] => .error (.sliceBounds 1 0)
  | _ :: rows => parseSpendingLoop parseFloat [] rows

/-! ## `strconv.ParseInt` in base 10 -/

/-- The two errors of `strconv`. -/
inductive NumError where
  | ErrSyntax
  | ErrRange
deriving DecidableEq, Repr

/-- The helper `lower` of `strconv`: `c | ('x' - 'X')`. -/
def lower (c : Nat) : Nat := c ||| 0x20

/-- The digit loop of `strconv.ParseUint(s, 10, bitSize)`, from the accumulator
`n`.  Characters are scanned as code points: a code point from 128 on stands for
bytes from `0x80` on, which are no digits, so the result is that of the scan of
the bytes. -/
def parseUintLoop (bitSize : Nat) (n : Nat) : List Char → Except NumError Nat
  | [] => .ok n
  | c :: cs =>
    let b := c.toNat
    let d? : Option Nat :=
      if 48 ≤ b ∧ b ≤ 57 then some (b - 48)
      else if 97 ≤ lower b ∧ lower b ≤ 122 then some (lower b - 97 + 10)
      else none
    match d? with
    | none => .error .ErrSyntax
    | some d =>
      if d ≥ 10 then .error .ErrSyntax
      else if n ≥ (2 ^ 64 - 1) / 10 + 1 then .error .ErrRange
      else
        let n10 := (n * 10) % 2 ^ 64
        let n1 := (n10 + d) % 2 ^ 64
        if n1 < n10 ∨ n1 > 2 ^ bitSize - 1 then .error .ErrRange
        else parseUintLoop bitSize n1 cs

/-- The function `strconv.ParseUint(s, 10, bitSize)`. -/
def ParseUint (s : List Char) (bitSize : Nat) : Except NumError Nat :=
  if s = [] then .error .ErrSyntax else parseUintLoop bitSize 0 s

/-- The function `strconv.ParseInt(s, 10, bitSize)`. -/
def ParseInt (s : String) (bitSize : Nat) : Except NumError Int :=
  if s = "" then .error .ErrSyntax
  else
    let neg : Bool := s.toList.head? = some '-'
    let digits : List Char :=
      if s.toList.head? = some '+' ∨ s.toList.head? = some '-' then s.toList.tail else s.toList
    match ParseUint digits bitSize with
    | .error .ErrSyntax => .error .ErrSyntax
    | r =>
      let un : Nat := match r with
        | .ok u => u
        | .error _ => 2 ^ bitSize - 1
      let cutoff : Nat := 2 ^ (bitSize - 1)
      if !neg ∧ un ≥ cutoff then .error .ErrRange
      else if neg ∧ un > cutoff then .error .ErrRange
      else .ok (if neg then -(un : Int) else (un : Int))

/-! ## Income parser -/

/-- The loop of `parseIncomeCSV`; `groups` is the slice built so far. -/
def parseIncomeLoop : List paymentGroup → List (List String) → Except Fault (List paymentGroup)
  | groups, [] => .ok groups
  | groups, row :: rest =>
    match index row 1 with
    | .error e => .error e
    | .ok field1 =>
      match ParseInt field1 32 with
      | .error _ => .error (.fatal "Error parsing cost")
      | .ok cost =>
        match index row 0 with
        | .error e => .error e
        | .ok field0 =>
          parseIncomeLoop (groups ++ [{ category := field0, cost := cost }]) rest

/-- The function `parseIncomeCSV` of `main.go`. -/
def parseIncomeCSV (csv : List (List String)) : Except Fault (List paymentGroup) :=
  parseIncomeLoop [] csv

/-! ## Formatting verbs of `fmt.Sprintf` -/

/-- The verb `%d` on an integer. -/
def fmtD (v : Int) : String :=
  if v < 0 then "-" ++ Nat.repr v.natAbs else Nat.repr v.natAbs

/-- The number of hundredths printed by `%.2f` for the magnitude `n * 2^-1074`:
the exact value times 100, rounded to nearest, ties to even. -/
def hundredths (n : Nat) : Nat := float64.roundHalfEven (n * 100) float64.unit

/-- The verb `%.2f` on a `float64`: the exact value rounded to two decimals, to
nearest, ties to even; the sign is that of the value, also when it rounds to
zero. -/
def fmtF2 : float64 → String
  | .nan => "NaN"
  | .inf neg => if neg then "-Inf" else "+Inf"
  | .fin neg n =>
    (if neg then "-" else "") ++ Nat.repr (hundredths n / 100) ++ "." ++
      Nat.repr (hundredths n / 10 % 10) ++ Nat.repr (hundredths n % 10)

/-! ## Series builders -/

/-- The dynamic value stored in the field `Value` (an `interface{}`). -/
inductive Value where
  | float (f : float64)
  | int (i : Int)
deriving DecidableEq, Repr

/-- The struct `opts.Label`, of which only `Show` is set. -/
structure Label where
  Show : Option Bool
deriving DecidableEq, Repr

/-- The struct `opts.PieData`, with the fields the program sets. -/
structure PieData where
  Name : String
  Value : Value
  Label : Option Label
deriving DecidableEq, Repr

/-- The sequences in which `range` may yield the entries of a map: every entry
once, in any order. -/
def GoMap.IsRange (m : GoMap) (visited : List (String × float64)) : Prop :=
  visited.Perm m

/-- One iteration of the loop of `spendingPieData`. -/
def spendingPieStep (items : List PieData) (entry : String × float64) : List PieData :=
  let nameAndCost := entry.1 ++ ": £" ++ fmtF2 entry.2
  items ++ [{ Name := nameAndCost, Value := .float entry.2, Label := some { Show := some false } }]

/-- The function `spendingPieData` of `main.go`; `visited` is the sequence in
which `range groupedPayments` yields the entries of the map. -/
def spendingPieData (visited : List (String × float64)) : List PieData :=
  visited.foldl spendingPieStep []

/-- One iteration of the loop of `incomePieData`. -/
def incomePieStep (items : List PieData) (group : paymentGroup) : List PieData :=
  let nameAndCost := group.category ++ ": £" ++ fmtD group.cost
  items ++ [{ Name := nameAndCost, Value := .int group.cost, Label := some { Show := some false } }]

/-- The function `incomePieData` of `main.go`. -/
def incomePieData (groups : List paymentGroup) : List PieData :=
  groups.foldl incomePieStep []

/-! ## `strconv.ParseFloat` -/

/-- State of the mantissa loop of `readFloat`.  The mantissa is kept exactly
(the library cuts it at 19 digits and sets a `trunc` flag, then falls back on an
exact conversion): what follows is the correctly rounded conversion. -/
structure MantScan where
  mantissa : Nat
  nd : Nat
  dp : Int
  sawdot : Bool
  sawdigits : Bool
  underscores : Bool
deriving DecidableEq, Repr

/-- The mantissa loop of `readFloat`: the state at the exit of the loop and the
input left. -/
def readMantissa (hex : Bool) : MantScan → List Char → MantScan × List Char
  | st, [] => (st, [])
  | st, c :: cs =>
    let b := c.toNat
    if b = 95 then readMantissa hex { st with underscores := true } cs
    else if b = 46 then
      if st.sawdot then (st, c :: cs)
      else readMantissa hex { st with sawdot := true, dp := st.nd } cs
    else if 48 ≤ b ∧ b ≤ 57 then
      if b = 48 ∧ st.nd = 0 then
        readMantissa hex { st with sawdigits := true, dp := st.dp - 1 } cs
      else
        readMantissa hex { st with sawdigits := true, nd := st.nd + 1,
                                   mantissa := st.mantissa * (if hex then 16 else 10) + (b - 48) } cs
    else if hex ∧ 97 ≤ lower b ∧ lower b ≤ 102 then
      readMantissa hex { st with sawdigits := true, nd := st.nd + 1,
                                 mantissa := st.mantissa * 16 + (lower b - 97 + 10) } cs
    else (st, c :: cs)

/-- The exponent digit loop of `readFloat`: exponent, underscore flag, input left. -/
def readExpDigits : Nat → Bool → List Char → Nat × Bool × List Char
  | e, u, [] => (e, u, [])
  | e, u, c :: cs =>
    let b := c.toNat
    if b = 95 then readExpDigits e true cs
    else if 48 ≤ b ∧ b ≤ 57 then readExpDigits (if e < 10000 then e * 10 + (b - 48) else e) u cs
    else (e, u, c :: cs)

/-- The loop of `underscoreOK`; `saw` is the last kind of character seen. -/
def underscoreLoop (hex : Bool) : Char → List Char → Bool
  | saw, [] => saw != '_'
  | saw, c :: cs =>
    let b := c.toNat
    if (48 ≤ b ∧ b ≤ 57) ∨ (hex ∧ 97 ≤ lower b ∧ lower b ≤ 102) then underscoreLoop hex '0' cs
    else if b = 95 then (if saw != '0' then false else underscoreLoop hex '_' cs)
    else if saw = '_' then false
    else underscoreLoop hex '!' cs

/-- The helper `underscoreOK` of `strconv`. -/
def underscoreOK (s : List Char) : Bool :=
  let s := match s with
    | '-' :: r => r
    | '+' :: r => r
    | _ => s
  match s with
  | c0 :: c1 :: r =>
    if c0 = '0' ∧ (lower c1.toNat = 98 ∨ lower c1.toNat = 111 ∨ lower c1.toNat = 120) then
      underscoreLoop (lower c1.toNat = 120) '0' r
    else underscoreLoop false '^' s
  | _ => underscoreLoop false '^' s

/-- What `readFloat` reads when it accepts the whole of `s`: the sign, the exact
mantissa, the base of the exponent (10, or 2 for a hexadecimal mantissa) and the
exponent.  `none` when `readFloat` rejects `s` or stops before its end. -/
def readFloat (s : List Char) : Option (Bool × Nat × Nat × Int) :=
  if s = [] then none
  else
    let signed : Bool × List Char :=
      match s with
      | '+' :: r => (false, r)
      | '-' :: r => (true, r)
      | _ => (false, s)
    let prefixed : Bool × List Char :=
      match signed.2 with
      | c0 :: c1 :: c2 :: r => if c0 = '0' ∧ lower c1.toNat = 120 then (true, c2 :: r) else (false, signed.2)
      | r => (false, r)
    let hex := prefixed.1
    let scanned := readMantissa hex
      { mantissa := 0, nd := 0, dp := 0, sawdot := false, sawdigits := false, underscores := false }
      prefixed.2
    let st := scanned.1
    if !st.sawdigits then none
    else
      let dp0 : Int := if st.sawdot then st.dp else st.nd
      let dp1 : Int := if hex then dp0 * 4 else dp0
      let ndMant : Int := if hex then st.nd * 4 else st.nd
      let finish (dp : Int) (underscores : Bool) (rest : List Char) : Option (Bool × Nat × Nat × Int) :=
        if underscores ∧ !underscoreOK s then none
        else if rest ≠ [] then none
        else some (signed.1, st.mantissa, if hex then 2 else 10, dp - ndMant)
      match scanned.2 with
      | [] => if hex then none else finish dp1 st.underscores []
      | c :: cs =>
        if lower c.toNat = (if hex then 112 else 101) then
          match cs with
          | [] => none
          | c1 :: cs1 =>
            let esigned : Int × List Char :=
              if c1 = '+' then (1, cs1) else if c1 = '-' then (-1, cs1) else (1, c1 :: cs1)
            match esigned.2 with
            | [] => none
            | c2 :: cs2 =>
              if c2.toNat < 48 ∨ c2.toNat > 57 then none
              else
                let ex := readExpDigits 0 st.underscores (c2 :: cs2)
                finish (dp1 + ex.1 * esigned.1) ex.2.1 ex.2.2
        else if hex then none
        else finish dp1 st.underscores (c :: cs)

/-- The helper `special` of `strconv`, for a string that is wholly an infinity
or a NaN: `inf` and `infinity` with an optional sign, `nan` without one, in any
letter case. -/
def special (s : List Char) : Option float64 :=
  let fold (cs : List Char) : List Nat :=
    cs.map (fun c => if 65 ≤ c.toNat ∧ c.toNat ≤ 90 then c.toNat + 32 else c.toNat)
  let isInf (cs : List Char) : Bool :=
    fold cs = [105, 110, 102] ∨ fold cs = [105, 110, 102, 105, 110, 105, 116, 121]
  match s with
  | '+' :: r => if isInf r then some (.inf false) else none
  | '-' :: r => if isInf r then some (.inf true) else none
  | _ =>
    if isInf s then some (.inf false)
    else if fold s = [110, 97, 110] then some .nan
    else none

/-- The function `strconv.ParseFloat(s, 64)`: `none` when it returns an error
(a syntax error, or a range error for a value that rounds to an infinity),
otherwise the binary64 value nearest to the number written, ties to even. -/
def ParseFloat (s : String) : Option float64 :=
  match special s.toList with
  | some f => some f
  | none =>
    match readFloat s.toList with
    | none => none
    | some (neg, mantissa, base, exp) =>
      let n : Nat :=
        if 0 ≤ exp then float64.roundRatio (mantissa * base ^ exp.toNat * float64.unit) 1
        else float64.roundRatio (mantissa * float64.unit) (base ^ (-exp).toNat)
      if n < float64.limit then some (.fin neg n) else none

/-! ## The run -/

/-- What `os.Open` and then `csv.Reader.ReadAll` give for a path. -/
inductive FileContent where
  /-- The call `os.Open` returns an error. -/
  | unreadable
  /-- The call `ReadAll` returns an error. -/
  | notCSV
  /-- The rows read. -/
  | rows (csv : List (List String))
deriving DecidableEq, Repr

/-- The function `openFile` of `main.go`, on the files `files`. -/
def openFile (files : String → FileContent) (fileLocation : String) :
    Except Fault (List (List String)) :=
  match files fileLocation with
  | .unreadable => .error (.fatal "Error opening file")
  | .notCSV => .error (.fatal "Error reading CSV")
  | .rows csv => .ok csv

/-- What a run depends on outside `main.go`: the files, `strconv.ParseFloat`, the
order in which `range` visits a map, whether `render.MakeChartSnapshot` writes the
image it is asked for (`main` discards its error), and whether `os.Remove`
succeeds. -/
structure World where
  files : String → FileContent
  parseFloat : String → Option float64
  range : GoMap → List (String × float64)
  snapshot : List PieData → String → Bool
  remove : String → Bool

/-- How a run ends: the images written, each with the series drawn in it, and the
fault that ended the run, if any. -/
structure Run where
  images : List (String × List PieData)
  result : Except Fault Unit
deriving DecidableEq, Repr

/-- The function `main` of `main.go`, with the two flags as arguments. -/
def main (w : World) (spendingFileLocation incomeFileLocation : String) : Run :=
  match openFile w.files spendingFileLocation with
  | .error e => { images := [], result := .error e }
  | .ok spendingCSV =>
    match parseSpendingCSV w.parseFloat spendingCSV with
    | .error e => { images := [], result := .error e }
    | .ok payments =>
      let groupedPayments := groupPaymentsByCategory payments
      let spendingSeries := spendingPieData (w.range groupedPayments)
      let images₁ : List (String × List PieData) :=
        if w.snapshot spendingSeries "committed-spending.png" then
          [("committed-spending.png", spendingSeries)]
        else []
      match openFile w.files incomeFileLocation with
      | .error e => { images := images₁, result := .error e }
      | .ok incomeCSV =>
        match parseIncomeCSV incomeCSV with
        | .error e => { images := images₁, result := .error e }
        | .ok groups =>
          let incomeSeries := incomePieData groups
          let images₂ : List (String × List PieData) :=
            if w.snapshot incomeSeries "income-breakdown.png" then
              images₁ ++ [("income-breakdown.png", incomeSeries)]
            else images₁
          if w.remove "committed-spending.html" then { images := images₂, result := .ok () }
          else { images := images₂, result := .error (.fatal "Error removing committed-spending.html") }

/-! ## Notions used in the statements -/

/-- The running total of a category: the value found in the map, then every
cost added to it from the left; a first cost is taken as it is. -/
def runningTotal (start : Option float64) (costs : List float64) : Option float64 :=
  costs.foldl (fun total cost => some (match total with
    | none => cost
    | some t => t.add cost)) start

/-- The sum of a sequence of `float64` values: each one added, from the left, to
a total that starts at zero. -/
def sumFloat (xs : List float64) : float64 :=
  xs.foldl float64.add (float64.fin false 0)

/-- A value that is a whole number below `2^53` in magnitude. -/
def float64.IsWhole (x : float64) : Prop :=
  x = float64.ofInt x.toInt ∧ x.toInt.natAbs < 2 ^ 53

/-- The sum of the magnitudes of a sequence of whole numbers. -/
def absSum (ks : List Int) : Nat := (ks.map Int.natAbs).sum

/-- The map whose values are the given whole numbers. -/
def wholeMap (zs : List (String × Int)) : GoMap :=
  zs.map (fun z => (z.1, float64.ofInt z.2))

/-- The number written by a sequence of decimal digits. -/
def decimalValue (ds : List Char) : Nat :=
  ds.foldl (fun n c => n * 10 + (c.toNat - 48)) 0

/-- The string `s` is a base-10 integer literal denoting `n`: an optional sign
followed by one or more decimal digits. -/
def IntLiteral (s : String) (n : Int) : Prop :=
  ∃ ds : List Char, ds ≠ [] ∧ (∀ c ∈ ds, 48 ≤ c.toNat ∧ c.toNat ≤ 57) ∧
    ((s.toList = ds ∧ n = decimalValue ds) ∨
     (s.toList = '+' :: ds ∧ n = decimalValue ds) ∨
     (s.toList = '-' :: ds ∧ n = -(decimalValue ds : Int)))

/-- The string `s` writes a number with exactly two decimal places: an optional
minus sign, one or more digits, a point and two digits. -/
def TwoDecimals (s : String) : Prop :=
  ∃ (neg : Bool) (whole : List Char) (d₁ d₂ : Char),
    whole ≠ [] ∧ (∀ c ∈ whole, c.isDigit = true) ∧ d₁.isDigit = true ∧ d₂.isDigit = true ∧
    s.toList = (if neg then ['-'] else []) ++ whole ++ ['.', d₁, d₂]

/-! # Properties -/

/-! ## Lemmas on maps -/

theorem GoMap.lookup_store_self (m : GoMap) (k : String) (v : float64) :
    (m.store k v).lookup k = some v := by
  induction m with
  | nil => simp [GoMap.store, GoMap.lookup]
  | cons e rest ih =>
    obtain ⟨k', v'⟩ := e
    by_cases h : k' = k
    · simp [GoMap.store, GoMap.lookup, h]
    · simp [GoMap.store, GoMap.lookup, h, ih]

theorem GoMap.lookup_store_other (m : GoMap) (k k' : String) (v : float64) (h : k ≠ k') :
    (m.store k v).lookup k' = m.lookup k' := by
  induction m with
  | nil => simp [GoMap.store, GoMap.lookup, h]
  | cons e rest ih =>
    obtain ⟨k₀, v₀⟩ := e
    by_cases h₀ : k₀ = k
    · subst h₀
      simp [GoMap.store, GoMap.lookup, h]
    · by_cases h₁ : k₀ = k'
      · subst h₁
        simp [GoMap.store, GoMap.lookup, h₀]
      · simp [GoMap.store, GoMap.lookup, h₀, h₁, ih]

theorem GoMap.lookup_eq_none_iff (m : GoMap) (k : String) :
    m.lookup k = none ↔ k ∉ m.keys := by
  induction m with
  | nil => simp [GoMap.lookup, GoMap.keys]
  | cons e rest ih =>
    obtain ⟨k', v'⟩ := e
    by_cases h : k' = k
    · simp [GoMap.lookup, GoMap.keys, h]
    · have h' : ¬ k = k' := fun e => h e.symm
      simpa [GoMap.lookup, GoMap.keys, h, h'] using ih

theorem GoMap.keys_store (m : GoMap) (k : String) (v : float64) :
    (m.store k v).keys = if k ∈ m.keys then m.keys else m.keys ++ [k] := by
  induction m with
  | nil => simp [GoMap.store, GoMap.keys]
  | cons e rest ih =>
    obtain ⟨k', v'⟩ := e
    by_cases h : k' = k
    · simp [GoMap.store, GoMap.keys, h]
    · have h' : ¬ k = k' := fun e => h e.symm
      have ih' := ih
      simp only [GoMap.keys] at ih' ⊢
      by_cases hm : k ∈ List.map Prod.fst rest
      · simp [GoMap.store, h, h', hm, ih']
      · simp [GoMap.store, h, h', hm, ih']

/-- The keys after one iteration of the grouping loop. -/
theorem keys_groupStep (m : GoMap) (p : payment) :
    (groupStep m p).keys = if p.category ∈ m.keys then m.keys else m.keys ++ [p.category] := by
  unfold groupStep
  cases h : m.lookup p.category <;> simp [GoMap.keys_store]

/-- The value of a key after one iteration of the grouping loop. -/
theorem lookup_groupStep (m : GoMap) (p : payment) (c : String) :
    (groupStep m p).lookup c =
      if p.category = c then
        some (match m.lookup c with
          | none => p.cost
          | some total => total.add p.cost)
      else m.lookup c := by
  unfold groupStep
  by_cases h : p.category = c
  · subst h
    cases hl : m.lookup p.category <;> simp [GoMap.lookup_store_self]
  · cases hl : m.lookup p.category <;> simp [h, GoMap.lookup_store_other]

theorem runningTotal_some (t : float64) (costs : List float64) :
    runningTotal (some t) costs = some (costs.foldl float64.add t) := by
  induction costs generalizing t with
  | nil => rfl
  | cons x xs ih => simpa [runningTotal] using ih (t.add x)

theorem lookup_foldl_groupStep (payments : List payment) (m : GoMap) (c : String) :
    (payments.foldl groupStep m).lookup c =
      runningTotal (m.lookup c)
        ((payments.filter (fun p => p.category = c)).map payment.cost) := by
  induction payments generalizing m with
  | nil => rfl
  | cons p ps ih =>
    rw [List.foldl_cons, ih, lookup_groupStep]
    by_cases h : p.category = c
    · simp [h, runningTotal]
    · simp [h]

theorem keys_foldl_groupStep_nodup (payments : List payment) (m : GoMap) (hm : m.keys.Nodup) :
    (payments.foldl groupStep m).keys.Nodup := by
  induction payments generalizing m with
  | nil => exact hm
  | cons p ps ih =>
    rw [List.foldl_cons]
    apply ih
    rw [keys_groupStep]
    split
    · exact hm
    · rename_i h
      exact List.Nodup.append hm (List.nodup_singleton _) (by simpa using h)

theorem mem_keys_foldl_groupStep (payments : List payment) (m : GoMap) (k : String) :
    k ∈ (payments.foldl groupStep m).keys ↔ k ∈ m.keys ∨ k ∈ payments.map payment.category := by
  induction payments generalizing m with
  | nil => simp
  | cons p ps ih =>
    rw [List.foldl_cons, ih, keys_groupStep]
    by_cases h : p.category ∈ m.keys
    · simp only [h, if_true, List.map_cons, List.mem_cons]
      constructor
      · rintro (h1 | h1)
        · exact Or.inl h1
        · exact Or.inr (Or.inr h1)
      · rintro (h1 | h1 | h1)
        · exact Or.inl h1
        · exact Or.inl (h1 ▸ h)
        · exact Or.inr h1
    · simp only [h, if_false, List.map_cons, List.mem_cons, List.mem_append, List.mem_singleton]
      tauto

/-- C1: for every sequence of spending records and every category `c` occurring in it,
the mapping returned by `groupPaymentsByCategory` has an entry for `c`, and its value is
the first cost of category `c` with every later cost of category `c` added to it from
the left, in input order. -/
theorem groupPaymentsByCategory_entry (payments : List payment) (c : String)
    (hc : c ∈ payments.map payment.category) :
    ∃ first later,
      (payments.filter (fun p => p.category = c)).map payment.cost = first :: later ∧
      (groupPaymentsByCategory payments).lookup c = some (later.foldl float64.add first) := by
  obtain ⟨p, hp, hpc⟩ := List.mem_map.mp hc
  have hne : (payments.filter (fun p => p.category = c)).map payment.cost ≠ [] := by
    intro h
    have hmem : p ∈ payments.filter (fun p => p.category = c) :=
      List.mem_filter.mpr ⟨hp, by simpa using hpc⟩
    rw [List.map_eq_nil_iff] at h
    rw [h] at hmem
    exact absurd hmem (List.not_mem_nil _)
  obtain ⟨first, later, hfl⟩ := List.exists_cons_of_ne_nil hne
  refine ⟨first, later, hfl, ?_⟩
  unfold groupPaymentsByCategory
  rw [lookup_foldl_groupStep, hfl]
  simp only [GoMap.lookup, runningTotal, List.foldl_cons]
  exact runningTotal_some first later

/-- Witness of C1: two costs of one category around a cost of another; a negative cost
is added like any other. -/
theorem groupPaymentsByCategory_entry_witness :
    "A" ∈ [(⟨"A", .ofInt 3⟩ : payment), ⟨"B", .ofInt 1⟩, ⟨"A", .ofInt (-5)⟩].map payment.category ∧
    ∃ first later,
      ([(⟨"A", .ofInt 3⟩ : payment), ⟨"B", .ofInt 1⟩, ⟨"A", .ofInt (-5)⟩].filter
        (fun p => p.category = "A")).map payment.cost = first :: later ∧
      (groupPaymentsByCategory [⟨"A", .ofInt 3⟩, ⟨"B", .ofInt 1⟩, ⟨"A", .ofInt (-5)⟩]).lookup "A"
        = some (later.foldl float64.add first) :=
  ⟨by decide, groupPaymentsByCategory_entry _ "A" (by decide)⟩

/-- C3: the keys of the mapping returned by `groupPaymentsByCategory` are pairwise
distinct and are exactly the category strings of the input, compared by string equality;
so the mapping has as many entries as the input has distinct categories, and `"Food"`
and `"food"` give two entries. -/
theorem groupPaymentsByCategory_keys (payments : List payment) :
    (groupPaymentsByCategory payments).keys.Nodup ∧
    (∀ k, k ∈ (groupPaymentsByCategory payments).keys ↔ k ∈ payments.map payment.category) ∧
    (groupPaymentsByCategory payments).length = (payments.map payment.category).toFinset.card ∧
    (∀ x y, groupPaymentsByCategory [⟨"Food", x⟩, ⟨"food", y⟩] = [("Food", x), ("food", y)]) := by
  have hnd : (groupPaymentsByCategory payments).keys.Nodup :=
    keys_foldl_groupStep_nodup payments [] List.nodup_nil
  have hmem : ∀ k, k ∈ (groupPaymentsByCategory payments).keys ↔
      k ∈ payments.map payment.category := by
    intro k
    unfold groupPaymentsByCategory
    rw [mem_keys_foldl_groupStep]
    simp [GoMap.keys]
  refine ⟨hnd, hmem, ?_, ?_⟩
  · have hlen : (groupPaymentsByCategory payments).length =
        (groupPaymentsByCategory payments).keys.length := by simp [GoMap.keys]
    rw [hlen, ← List.toFinset_card_of_nodup hnd]
    congr 1
    ext k
    simp only [List.mem_toFinset]
    exact hmem k
  · intro x y
    have hne : ¬ ("Food" = "food") := by decide
    simp [groupPaymentsByCategory, groupStep, GoMap.lookup, GoMap.store, hne]

/-! ## Exact additions of whole numbers -/

namespace float64

theorem bitLenAux_le (fuel n k : Nat) (h : n < 2 ^ k) : bitLenAux fuel n ≤ k := by
  induction fuel generalizing n k with
  | zero => simp [bitLenAux]
  | succ fuel ih =>
    unfold bitLenAux
    split
    · exact Nat.zero_le _
    · rename_i hn
      cases k with
      | zero => simp at h; omega
      | succ k =>
        have h2 : n / 2 < 2 ^ k := by
          rw [Nat.div_lt_iff_lt_mul (by decide)]
          rw [Nat.pow_succ] at h
          exact h
        have := ih (n / 2) k h2
        omega

theorem excess_le (n j : Nat) (h : n < 2 ^ (53 + j)) : excess n ≤ j := by
  have := bitLenAux_le n n (53 + j) h
  unfold excess bitLen
  omega

theorem roundHalfEven_of_dvd (n d : Nat) (hd : 0 < d) (h : d ∣ n) :
    roundHalfEven n d = n / d := by
  unfold roundHalfEven
  have hr : n % d = 0 := Nat.mod_eq_zero_of_dvd h
  simp only [hr, Nat.mul_zero]
  have h1 : ¬ (d < 0) := Nat.not_lt_zero d
  have h2 : ¬ (0 = d) := fun e => by omega
  simp [h1, h2]

/-- A magnitude that fits in 53 bits above its trailing zeros is not changed by
rounding. -/
theorem roundNat_of_dvd (n j : Nat) (h : n < 2 ^ (53 + j)) (hdvd : 2 ^ j ∣ n) :
    roundNat n = n := by
  unfold roundNat roundRatio
  simp only [Nat.div_one, Nat.one_mul]
  have hle : excess n ≤ j := excess_le n j h
  have hdvd' : 2 ^ excess n ∣ n := Nat.dvd_trans (Nat.pow_dvd_pow 2 hle) hdvd
  rw [roundHalfEven_of_dvd n _ (Nat.two_pow_pos _) hdvd']
  exact Nat.div_mul_cancel hdvd'

theorem scaled_lt (c u : Nat) (hc : c < 2 ^ 53) : c * 2 ^ u < 2 ^ (53 + u) := by
  rw [Nat.pow_add]
  exact Nat.mul_lt_mul_of_pos_right hc (Nat.two_pow_pos _)

theorem roundNat_scaled (c u : Nat) (hc : c < 2 ^ 53) : roundNat (c * 2 ^ u) = c * 2 ^ u :=
  roundNat_of_dvd _ u (scaled_lt c u hc) (Nat.dvd_mul_left _ _)

theorem unit_eq : unit = 2 ^ 1074 := by rw [unit]

theorem unit_pos : 0 < unit := by decide!

theorem roundNat_units (c : Nat) (hc : c < 2 ^ 53) : roundNat (c * unit) = c * unit := by
  rw [unit_eq]; exact roundNat_scaled c 1074 hc

theorem units_lt_limit (c : Nat) (hc : c < 2 ^ 53) : c * unit < limit := by
  have h : 2 ^ 53 * unit ≤ limit := by decide!
  exact Nat.lt_of_lt_of_le (Nat.mul_lt_mul_of_pos_right hc unit_pos) h

theorem pack_units (neg : Bool) (c : Nat) (hc : c < 2 ^ 53) :
    pack neg (roundNat (c * unit)) = fin neg (c * unit) := by
  rw [roundNat_units c hc]
  unfold pack
  rw [if_pos (units_lt_limit c hc)]

/-- The binary64 value of a whole number below `2^53` in magnitude. -/
theorem ofInt_small (k : Int) (hk : k.natAbs < 2 ^ 53) :
    ofInt k = fin (decide (k < 0)) (k.natAbs * unit) :=
  pack_units _ _ hk

theorem toInt_ofInt (k : Int) (hk : k.natAbs < 2 ^ 53) : toInt (ofInt k) = k := by
  rw [ofInt_small k hk]
  show (if decide (k < 0) = true then -((k.natAbs * unit / unit : Nat) : Int)
    else ((k.natAbs * unit / unit : Nat) : Int)) = k
  rw [Nat.mul_div_cancel _ unit_pos]
  by_cases h : k < 0
  · rw [if_pos (decide_eq_true h)]
    omega
  · rw [if_neg (by simpa using h)]
    omega

/-- Adding two whole numbers is exact as long as the operands and the sum stay
below `2^53` in magnitude. -/
theorem add_ofInt (a b : Int) (ha : a.natAbs < 2 ^ 53) (hb : b.natAbs < 2 ^ 53)
    (hab : (a + b).natAbs < 2 ^ 53) : add (ofInt a) (ofInt b) = ofInt (a + b) := by
  rw [ofInt_small a ha, ofInt_small b hb, ofInt_small (a + b) hab]
  have hpos : 0 < unit := unit_pos
  unfold add
  by_cases hsa : a < 0 <;> by_cases hsb : b < 0
  · have hs : a + b < 0 := by omega
    have hm : a.natAbs * unit + b.natAbs * unit = (a + b).natAbs * unit := by
      rw [← Nat.add_mul]; congr 1; omega
    simp only [hsa, hsb, hs, decide_True, if_true, hm]
    exact pack_units _ _ hab
  · have hb0 : 0 ≤ b := by omega
    simp only [hsa, hsb, decide_True, decide_False]
    simp only [Bool.true_eq_false, if_false]
    by_cases he : a.natAbs * unit = b.natAbs * unit
    · have he' : a.natAbs = b.natAbs := Nat.eq_of_mul_eq_mul_right hpos he
      have h0 : a + b = 0 := by omega
      simp [he, h0]
    · have hne : a.natAbs ≠ b.natAbs := fun e => he (by rw [e])
      simp only [he, if_false]
      by_cases hlt : b.natAbs * unit < a.natAbs * unit
      · have hlt' : b.natAbs < a.natAbs := Nat.lt_of_mul_lt_mul_right hlt
        have hs : a + b < 0 := by omega
        have hm : a.natAbs * unit - b.natAbs * unit = (a + b).natAbs * unit := by
          rw [← Nat.sub_mul]; congr 1; omega
        simp only [hlt, if_true, hm, hs, decide_True]
        exact pack_units _ _ hab
      · have hlt' : a.natAbs < b.natAbs := by
          rcases Nat.lt_or_ge a.natAbs b.natAbs with h | h
          · exact h
          · exfalso
            rcases Nat.lt_or_eq_of_le h with h | h
            · exact hlt (Nat.mul_lt_mul_of_pos_right h hpos)
            · exact hne h.symm
        have hs : ¬ (a + b < 0) := by omega
        have hm : b.natAbs * unit - a.natAbs * unit = (a + b).natAbs * unit := by
          rw [← Nat.sub_mul]; congr 1; omega
        simp only [hlt, if_false, hm, hs, decide_False]
        exact pack_units _ _ hab
  · have ha0 : 0 ≤ a := by omega
    simp only [hsa, hsb, decide_True, decide_False]
    simp only [Bool.false_eq_true, if_false]
    by_cases he : a.natAbs * unit = b.natAbs * unit
    · have he' : a.natAbs = b.natAbs := Nat.eq_of_mul_eq_mul_right hpos he
      have h0 : a + b = 0 := by omega
      simp [he, h0]
    · have hne : a.natAbs ≠ b.natAbs := fun e => he (by rw [e])
      simp only [he, if_false]
      by_cases hlt : b.natAbs * unit < a.natAbs * unit
      · have hlt' : b.natAbs < a.natAbs := Nat.lt_of_mul_lt_mul_right hlt
        have hs : ¬ (a + b < 0) := by omega
        have hm : a.natAbs * unit - b.natAbs * unit = (a + b).natAbs * unit := by
          rw [← Nat.sub_mul]; congr 1; omega
        simp only [hlt, if_true, hm, hs, decide_False]
        exact pack_units _ _ hab
      · have hlt' : a.natAbs < b.natAbs := by
          rcases Nat.lt_or_ge a.natAbs b.natAbs with h | h
          · exact h
          · exfalso
            rcases Nat.lt_or_eq_of_le h with h | h
            · exact hlt (Nat.mul_lt_mul_of_pos_right h hpos)
            · exact hne h.symm
        have hs : a + b < 0 := by omega
        have hm : b.natAbs * unit - a.natAbs * unit = (a + b).natAbs * unit := by
          rw [← Nat.sub_mul]; congr 1; omega
        simp only [hlt, if_false, hm, hs, decide_True]
        exact pack_units _ _ hab
  · have hs : ¬ (a + b < 0) := by omega
    have hm : a.natAbs * unit + b.natAbs * unit = (a + b).natAbs * unit := by
      rw [← Nat.add_mul]; congr 1; omega
    simp only [hsa, hsb, hs, decide_False, if_true, hm]
    exact pack_units _ _ hab

end float64

/-! ## The sum of the totals -/

theorem float64.isWhole_ofInt (k : Int) (hk : k.natAbs < 2 ^ 53) : (float64.ofInt k).IsWhole := by
  unfold float64.IsWhole
  rw [float64.toInt_ofInt k hk]
  exact ⟨rfl, hk⟩

theorem natAbs_sum_le (ks : List Int) : ks.sum.natAbs ≤ absSum ks := by
  induction ks with
  | nil => simp [absSum]
  | cons k ks ih =>
    simp only [List.sum_cons, absSum, List.map_cons] at ih ⊢
    have := Int.natAbs_add_le k ks.sum
    omega

theorem foldl_add_whole (xs : List float64) (s : Int)
    (hx : ∀ x ∈ xs, x.IsWhole)
    (hs : s.natAbs + absSum (xs.map float64.toInt) < 2 ^ 53) :
    xs.foldl float64.add (float64.ofInt s) = float64.ofInt (s + (xs.map float64.toInt).sum) := by
  induction xs generalizing s with
  | nil => simp
  | cons x xs ih =>
    have hxw := hx x (List.mem_cons_self _ _)
    simp only [List.map_cons, absSum, List.sum_cons] at hs
    have hadd : float64.add (float64.ofInt s) x = float64.ofInt (s + x.toInt) := by
      have h1 := Int.natAbs_add_le s x.toInt
      have := float64.add_ofInt s x.toInt (by omega) hxw.2 (by omega)
      rw [← hxw.1] at this
      exact this
    rw [List.foldl_cons, hadd, ih (s + x.toInt) (fun y hy => hx y (List.mem_cons_of_mem _ hy))]
    · simp only [List.map_cons, List.sum_cons]
      congr 1
      omega
    · have h1 := Int.natAbs_add_le s x.toInt
      simp only [absSum]
      omega

/-- The sum of whole numbers whose magnitudes add up to less than `2^53` is exact. -/
theorem sumFloat_whole (xs : List float64) (hx : ∀ x ∈ xs, x.IsWhole)
    (hs : absSum (xs.map float64.toInt) < 2 ^ 53) :
    sumFloat xs = float64.ofInt (xs.map float64.toInt).sum := by
  have h0 : float64.fin false 0 = float64.ofInt 0 := by decide!
  unfold sumFloat
  rw [h0, foldl_add_whole xs 0 hx (by simpa using hs)]
  simp

theorem groupStep_cons_ne (k : String) (v : float64) (m : GoMap) (p : payment)
    (h : k ≠ p.category) : groupStep ((k, v) :: m) p = (k, v) :: groupStep m p := by
  unfold groupStep
  have hl : GoMap.lookup ((k, v) :: m) p.category = GoMap.lookup m p.category := by
    simp [GoMap.lookup, h]
  rw [hl]
  cases m.lookup p.category <;> simp [GoMap.store, h]

theorem groupStep_cons_eq (k : String) (v : float64) (m : GoMap) (p : payment)
    (h : k = p.category) : groupStep ((k, v) :: m) p = (k, v.add p.cost) :: m := by
  unfold groupStep
  simp [GoMap.lookup, GoMap.store, h]

theorem groupStep_wholeMap (zs : List (String × Int)) (c : String) (k : Int)
    (h : absSum (zs.map Prod.snd) + k.natAbs < 2 ^ 53) :
    ∃ zs', groupStep (wholeMap zs) ⟨c, float64.ofInt k⟩ = wholeMap zs' ∧
      absSum (zs'.map Prod.snd) ≤ absSum (zs.map Prod.snd) + k.natAbs ∧
      (zs'.map Prod.snd).sum = (zs.map Prod.snd).sum + k := by
  induction zs with
  | nil =>
    refine ⟨[(c, k)], ?_, ?_, ?_⟩
    · simp [wholeMap, groupStep, GoMap.lookup, GoMap.store]
    · simp [absSum]
    · simp
  | cons z zs ih =>
    obtain ⟨c₀, k₀⟩ := z
    simp only [List.map_cons, absSum, List.sum_cons] at h
    by_cases hc : c₀ = c
    · refine ⟨(c₀, k₀ + k) :: zs, ?_, ?_, ?_⟩
      · have h1 := Int.natAbs_add_le k₀ k
        have hadd := float64.add_ofInt k₀ k (by omega) (by omega) (by omega)
        simp only [wholeMap, List.map_cons]
        rw [groupStep_cons_eq _ _ _ _ hc, hadd]
      · have h1 := Int.natAbs_add_le k₀ k
        simp only [List.map_cons, absSum, List.sum_cons]
        omega
      · simp only [List.map_cons, List.sum_cons]
        omega
    · obtain ⟨zs', h1, h2, h3⟩ := ih (by simp only [absSum]; omega)
      refine ⟨(c₀, k₀) :: zs', ?_, ?_, ?_⟩
      · simp only [wholeMap, List.map_cons] at h1 ⊢
        rw [groupStep_cons_ne _ _ _ _ hc, h1]
      · simp only [List.map_cons, absSum, List.sum_cons] at h2 ⊢
        omega
      · simp only [List.map_cons, List.sum_cons]
        omega

theorem foldl_groupStep_wholeMap (records zs : List (String × Int))
    (h : absSum (zs.map Prod.snd) + absSum (records.map Prod.snd) < 2 ^ 53) :
    ∃ zs', (records.map (fun r => (⟨r.1, float64.ofInt r.2⟩ : payment))).foldl groupStep
        (wholeMap zs) = wholeMap zs' ∧
      absSum (zs'.map Prod.snd) ≤ absSum (zs.map Prod.snd) + absSum (records.map Prod.snd) ∧
      (zs'.map Prod.snd).sum = (zs.map Prod.snd).sum + (records.map Prod.snd).sum := by
  induction records generalizing zs with
  | nil => exact ⟨zs, rfl, by simp [absSum], by simp⟩
  | cons r rs ih =>
    obtain ⟨c, k⟩ := r
    simp only [List.map_cons, absSum, List.sum_cons] at h
    obtain ⟨z1, e1, a1, s1⟩ := groupStep_wholeMap zs c k (by simp only [absSum]; omega)
    obtain ⟨z2, e2, a2, s2⟩ := ih z1 (by simp only [absSum] at a1 ⊢; omega)
    refine ⟨z2, ?_, ?_, ?_⟩
    · simp only [List.map_cons, List.foldl_cons]
      rw [e1, e2]
    · simp only [List.map_cons, absSum, List.sum_cons] at a1 a2 ⊢
      omega
    · simp only [List.map_cons, List.sum_cons]
      omega

/-- C2 as stated fails.  For the records `(A, 2^53), (A, 1), (B, 1), (B, 1)` the totals
are `A: 2^53` (the 1 is lost in rounding) and `B: 2`: in whichever order the two totals
are added and in whichever order the four costs are added, the two sums differ; the sum
of the costs in exact arithmetic differs from the sum of the totals too. -/
theorem groupPaymentsByCategory_sum_counterexample :
    (∀ visited,
      (groupPaymentsByCategory
        [⟨"A", .ofInt (2 ^ 53)⟩, ⟨"A", .ofInt 1⟩, ⟨"B", .ofInt 1⟩, ⟨"B", .ofInt 1⟩]).IsRange visited →
      ∀ order,
        order.Perm ([(⟨"A", .ofInt (2 ^ 53)⟩ : payment), ⟨"A", .ofInt 1⟩, ⟨"B", .ofInt 1⟩,
          ⟨"B", .ofInt 1⟩].map payment.cost) →
        sumFloat (visited.map Prod.snd) ≠ sumFloat order) ∧
    sumFloat ((groupPaymentsByCategory
        [⟨"A", .ofInt (2 ^ 53)⟩, ⟨"A", .ofInt 1⟩, ⟨"B", .ofInt 1⟩, ⟨"B", .ofInt 1⟩]).map Prod.snd)
      = .ofInt (2 ^ 53 + 2) ∧
    sumFloat ([(⟨"A", .ofInt (2 ^ 53)⟩ : payment), ⟨"A", .ofInt 1⟩, ⟨"B", .ofInt 1⟩,
          ⟨"B", .ofInt 1⟩].map payment.cost) = .ofInt (2 ^ 53) ∧
    ((groupPaymentsByCategory
        [⟨"A", .ofInt (2 ^ 53)⟩, ⟨"A", .ofInt 1⟩, ⟨"B", .ofInt 1⟩, ⟨"B", .ofInt 1⟩]).map
          (fun e => e.2.toInt)).sum = 2 ^ 53 + 2 ∧
    ([(⟨"A", .ofInt (2 ^ 53)⟩ : payment), ⟨"A", .ofInt 1⟩, ⟨"B", .ofInt 1⟩,
          ⟨"B", .ofInt 1⟩].map (fun p => p.cost.toInt)).sum = 2 ^ 53 + 3 := by
  refine ⟨?_, by decide!, by decide!, by decide!, by decide!⟩
  intro visited hv order ho
  have key : ∀ v ∈ (groupPaymentsByCategory
        [⟨"A", .ofInt (2 ^ 53)⟩, ⟨"A", .ofInt 1⟩, ⟨"B", .ofInt 1⟩, ⟨"B", .ofInt 1⟩]).permutations',
      ∀ o ∈ ([(⟨"A", .ofInt (2 ^ 53)⟩ : payment), ⟨"A", .ofInt 1⟩, ⟨"B", .ofInt 1⟩,
          ⟨"B", .ofInt 1⟩].map payment.cost).permutations',
        sumFloat (v.map Prod.snd) ≠ sumFloat o := by decide!
  exact key visited (List.mem_permutations'.mpr hv) order (List.mem_permutations'.mpr ho)

/-- C2, amended: when the costs are whole numbers whose magnitudes add up to less than
`2^53`, so that every addition is exact, the sum of the totals of the mapping returned by
`groupPaymentsByCategory`, over its categories in any order, equals the sum of the costs
of the input records (and is the exact sum of the costs). -/
theorem groupPaymentsByCategory_sum_whole (records : List (String × Int))
    (hsmall : absSum (records.map Prod.snd) < 2 ^ 53)
    (visited : List (String × float64))
    (hv : (groupPaymentsByCategory
      (records.map (fun r => (⟨r.1, float64.ofInt r.2⟩ : payment)))).IsRange visited) :
    sumFloat (visited.map Prod.snd)
        = sumFloat ((records.map (fun r => (⟨r.1, float64.ofInt r.2⟩ : payment))).map payment.cost) ∧
      sumFloat (visited.map Prod.snd) = float64.ofInt (records.map Prod.snd).sum := by
  obtain ⟨zs, hz, habs, hsum⟩ := foldl_groupStep_wholeMap records [] (by simpa [absSum] using hsmall)
  have hg : groupPaymentsByCategory (records.map (fun r => (⟨r.1, float64.ofInt r.2⟩ : payment)))
      = wholeMap zs := hz
  rw [hg] at hv
  simp only [List.map_nil, absSum, List.sum_nil, Nat.zero_add, Int.zero_add] at habs hsum
  have hbound : ∀ (ks : List Int) (k : Int), k ∈ ks → absSum ks < 2 ^ 53 → k.natAbs < 2 ^ 53 := by
    intro ks k hk hlt
    have : k.natAbs ≤ absSum ks := List.single_le_sum (by simp) _ (List.mem_map_of_mem _ hk)
    omega
  -- the totals, in the order visited
  have hperm : (visited.map Prod.snd).Perm ((zs.map Prod.snd).map float64.ofInt) := by
    have := List.Perm.map Prod.snd hv
    simpa [wholeMap, List.map_map, Function.comp] using this
  have hzs : absSum (zs.map Prod.snd) < 2 ^ 53 := by
    have h1 := hsmall
    simp only [absSum] at h1 ⊢
    omega
  have htoInt : ((zs.map Prod.snd).map float64.ofInt).map float64.toInt = zs.map Prod.snd := by
    rw [List.map_map]
    conv_rhs => rw [← List.map_id (zs.map Prod.snd)]
    apply List.map_congr_left
    intro k hk
    exact float64.toInt_ofInt k (hbound _ k hk hzs)
  have hwhole : ∀ x ∈ visited.map Prod.snd, x.IsWhole := by
    intro x hx
    obtain ⟨k, hk, rfl⟩ := List.mem_map.mp (hperm.subset hx)
    exact float64.isWhole_ofInt k (hbound _ k hk hzs)
  have hints : ((visited.map Prod.snd).map float64.toInt).Perm (zs.map Prod.snd) := by
    have := List.Perm.map float64.toInt hperm
    rwa [htoInt] at this
  have hleft : sumFloat (visited.map Prod.snd) = float64.ofInt (records.map Prod.snd).sum := by
    rw [sumFloat_whole _ hwhole, hints.sum_eq, hsum]
    simp only [absSum]
    rw [(List.Perm.map Int.natAbs hints).sum_eq]
    exact hzs
  -- the costs, in input order
  have hcosts : (records.map (fun r => (⟨r.1, float64.ofInt r.2⟩ : payment))).map payment.cost
      = (records.map Prod.snd).map float64.ofInt := by
    simp [List.map_map, Function.comp]
  have htoInt' : ((records.map Prod.snd).map float64.ofInt).map float64.toInt
      = records.map Prod.snd := by
    rw [List.map_map]
    conv_rhs => rw [← List.map_id (records.map Prod.snd)]
    apply List.map_congr_left
    intro k hk
    exact float64.toInt_ofInt k (hbound _ k hk hsmall)
  have hright : sumFloat ((records.map Prod.snd).map float64.ofInt)
      = float64.ofInt (records.map Prod.snd).sum := by
    rw [sumFloat_whole, htoInt']
    · intro x hx
      obtain ⟨k, hk, rfl⟩ := List.mem_map.mp hx
      exact float64.isWhole_ofInt k (hbound _ k hk hsmall)
    · rw [htoInt']; exact hsmall
  exact ⟨by rw [hleft, hcosts, hright], hleft⟩

/-- Witness of the amended C2: a refund among the records, and the totals visited in
the order opposite to their insertion. -/
theorem groupPaymentsByCategory_sum_whole_witness :
    absSum ([("Food", (12 : Int)), ("Rent", 700), ("Food", -5)].map Prod.snd) < 2 ^ 53 ∧
    (groupPaymentsByCategory ([("Food", (12 : Int)), ("Rent", 700), ("Food", -5)].map
      (fun r => (⟨r.1, float64.ofInt r.2⟩ : payment)))).IsRange
        [("Rent", float64.ofInt 700), ("Food", float64.ofInt 7)] ∧
    sumFloat ([("Rent", float64.ofInt 700), ("Food", float64.ofInt 7)].map Prod.snd)
      = float64.ofInt ([("Food", (12 : Int)), ("Rent", 700), ("Food", -5)].map Prod.snd).sum :=
  have hrange : (groupPaymentsByCategory ([("Food", (12 : Int)), ("Rent", 700), ("Food", -5)].map
      (fun r => (⟨r.1, float64.ofInt r.2⟩ : payment)))).IsRange
        [("Rent", float64.ofInt 700), ("Food", float64.ofInt 7)] :=
    List.mem_permutations'.mp (by decide!)
  ⟨by decide!, hrange,
    (groupPaymentsByCategory_sum_whole [("Food", 12), ("Rent", 700), ("Food", -5)] (by decide!)
      [("Rent", float64.ofInt 700), ("Food", float64.ofInt 7)] hrange).2⟩

/-! ## Integer literals -/

theorem foldl_digits_ge (ds : List Char) (n : Nat) :
    n ≤ ds.foldl (fun n c => n * 10 + (c.toNat - 48)) n := by
  induction ds generalizing n with
  | nil => exact Nat.le_refl n
  | cons c cs ih =>
    rw [List.foldl_cons]
    exact Nat.le_trans (by omega) (ih _)

theorem parseUintLoop_digits (ds : List Char) (n : Nat)
    (hds : ∀ c ∈ ds, 48 ≤ c.toNat ∧ c.toNat ≤ 57) (hn : n ≤ 2 ^ 32 - 1) :
    parseUintLoop 32 n ds =
      if ds.foldl (fun n c => n * 10 + (c.toNat - 48)) n ≤ 2 ^ 32 - 1 then
        .ok (ds.foldl (fun n c => n * 10 + (c.toNat - 48)) n)
      else .error .ErrRange := by
  induction ds generalizing n with
  | nil =>
    have hn' : n ≤ 4294967295 := by simpa using hn
    simp [parseUintLoop, hn']
  | cons c cs ih =>
    have hc := hds c (List.mem_cons_self _ _)
    have hcs : ∀ c ∈ cs, 48 ≤ c.toNat ∧ c.toNat ≤ 57 := fun c h => hds c (List.mem_cons_of_mem _ h)
    have hn' : n ≤ 4294967295 := by simpa using hn
    rw [List.foldl_cons]
    unfold parseUintLoop
    simp only [hc.1, hc.2, and_self, if_true]
    have hd : ¬ (c.toNat - 48 ≥ 10) := by omega
    have hcut : ¬ (n ≥ (2 ^ 64 - 1) / 10 + 1) := by
      have : (2 ^ 64 - 1) / 10 + 1 = 1844674407370955162 := by decide
      omega
    have h10 : (n * 10) % 2 ^ 64 = n * 10 := Nat.mod_eq_of_lt (by
      have : (2:Nat) ^ 64 = 18446744073709551616 := by decide
      omega)
    have h1 : (n * 10 + (c.toNat - 48)) % 2 ^ 64 = n * 10 + (c.toNat - 48) := Nat.mod_eq_of_lt (by
      have : (2:Nat) ^ 64 = 18446744073709551616 := by decide
      omega)
    simp only [hd, hcut, if_false, h10, h1]
    by_cases hbig : n * 10 + (c.toNat - 48) > 2 ^ 32 - 1
    · have hge := foldl_digits_ge cs (n * 10 + (c.toNat - 48))
      have hno : ¬ (n * 10 + (c.toNat - 48) < n * 10) := by omega
      have hno2 : ¬ (cs.foldl (fun n c => n * 10 + (c.toNat - 48)) (n * 10 + (c.toNat - 48))
          ≤ 2 ^ 32 - 1) := by omega
      simp only [hno, hbig, false_or, if_true, hno2, if_false]
    · have hno : ¬ (n * 10 + (c.toNat - 48) < n * 10) := by omega
      simp only [hno, hbig, false_or, if_false]
      exact ih _ hcs (by omega)

theorem ParseUint_digits (ds : List Char) (hne : ds ≠ [])
    (hds : ∀ c ∈ ds, 48 ≤ c.toNat ∧ c.toNat ≤ 57) :
    ParseUint ds 32 =
      if decimalValue ds ≤ 2 ^ 32 - 1 then .ok (decimalValue ds) else .error .ErrRange := by
  unfold ParseUint decimalValue
  rw [if_neg hne]
  exact parseUintLoop_digits ds 0 hds (Nat.zero_le _)

/-- The last step of `ParseInt`, from the sign and the result of `ParseUint`. -/
theorem ParseInt_of_digits (s : String) (neg : Bool) (ds : List Char) (hs : s ≠ "")
    (hneg : (s.toList.head? = some '-') = (neg = true))
    (hdigits : (if s.toList.head? = some '+' ∨ s.toList.head? = some '-' then s.toList.tail
      else s.toList) = ds)
    (hne : ds ≠ []) (hds : ∀ c ∈ ds, 48 ≤ c.toNat ∧ c.toNat ≤ 57) :
    ParseInt s 32 =
      if neg then
        (if decimalValue ds ≤ 2 ^ 31 then .ok (-(decimalValue ds : Int)) else .error .ErrRange)
      else
        (if decimalValue ds < 2 ^ 31 then .ok (decimalValue ds : Int) else .error .ErrRange) := by
  unfold ParseInt
  rw [if_neg hs]
  simp only [hdigits]
  rw [ParseUint_digits ds hne hds]
  simp only [hneg]
  have e32 : (2 : Nat) ^ 32 - 1 = 4294967295 := by decide
  have e31 : (2 : Nat) ^ (32 - 1) = 2147483648 := by decide
  rw [e32, e31]
  by_cases hv : decimalValue ds ≤ 4294967295
  · rw [if_pos hv]
    cases neg
    · by_cases h31 : decimalValue ds < 2147483648
      · simp [h31]
      · simp [h31]
    · by_cases h31 : decimalValue ds ≤ 2147483648
      · simp [h31]
      · simp [h31]
  · rw [if_neg hv]
    have h1 : ¬ (decimalValue ds < 2147483648) := by omega
    have h2 : ¬ (decimalValue ds ≤ 2147483648) := by omega
    cases neg <;> simp [h1, h2]

theorem toList_ne_nil_ne_empty (s : String) (h : s.toList ≠ []) : s ≠ "" := by
  intro e
  subst e
  exact h rfl

/-- What `ParseInt` with bit size 32 returns on an integer literal. -/
theorem ParseInt_literal (s : String) (n : Int) (h : IntLiteral s n) :
    ParseInt s 32 =
      if -2 ^ 31 ≤ n ∧ n ≤ 2 ^ 31 - 1 then .ok n else .error .ErrRange := by
  obtain ⟨ds, hne, hds, hcase⟩ := h
  obtain ⟨c, cs, rfl⟩ := List.exists_cons_of_ne_nil hne
  have hc := hds c (List.mem_cons_self _ _)
  have hplus : c ≠ '+' := by
    intro e; subst e
    have : ('+' : Char).toNat = 43 := by decide
    omega
  have hminus : c ≠ '-' := by
    intro e; subst e
    have : ('-' : Char).toNat = 45 := by decide
    omega
  rcases hcase with ⟨hs, hn⟩ | ⟨hs, hn⟩ | ⟨hs, hn⟩
  · rw [ParseInt_of_digits s false (c :: cs) (toList_ne_nil_ne_empty s (by rw [hs]; simp))
      (by rw [hs]; simp [hminus]) (by rw [hs]; simp [hplus, hminus]) hne hds]
    subst hn
    rw [if_neg (by simp)]
    by_cases h31 : decimalValue (c :: cs) < 2 ^ 31
    · rw [if_pos h31, if_pos (by constructor <;> omega)]
    · rw [if_neg h31, if_neg (by omega)]
  · rw [ParseInt_of_digits s false (c :: cs) (toList_ne_nil_ne_empty s (by rw [hs]; simp))
      (by rw [hs]; simp) (by rw [hs]; simp) hne hds]
    subst hn
    rw [if_neg (by simp)]
    by_cases h31 : decimalValue (c :: cs) < 2 ^ 31
    · rw [if_pos h31, if_pos (by constructor <;> omega)]
    · rw [if_neg h31, if_neg (by omega)]
  · rw [ParseInt_of_digits s true (c :: cs) (toList_ne_nil_ne_empty s (by rw [hs]; simp))
      (by rw [hs]; simp) (by rw [hs]; simp) hne hds]
    subst hn
    rw [if_pos rfl]
    by_cases h31 : decimalValue (c :: cs) ≤ 2 ^ 31
    · rw [if_pos h31, if_pos (by constructor <;> omega)]
    · rw [if_neg h31, if_neg (by omega)]

/-- Whatever `ParseInt` with bit size 32 accepts lies in the signed 32-bit range. -/
theorem ParseInt_ok_range (s : String) (v : Int) (h : ParseInt s 32 = .ok v) :
    -2 ^ 31 ≤ v ∧ v ≤ 2 ^ 31 - 1 := by
  unfold ParseInt at h
  split at h
  · exact absurd h (by simp)
  · dsimp only at h
    generalize (decide (s.toList.head? = some '-')) = neg at h
    generalize ParseUint _ 32 = r at h
    have e31 : (2 : Nat) ^ (32 - 1) = 2147483648 := by decide
    rw [e31] at h
    rcases r with e | u
    · cases e
      · exact absurd h (by simp)
      · cases neg <;> simp at h
    · cases neg
      · simp only [Bool.not_false, true_and, Bool.false_eq_true, false_and, if_false] at h
        split at h
        · exact absurd h (by simp)
        · rename_i hlt
          simp only [Except.ok.injEq] at h
          omega
      · simp only [Bool.not_true, Bool.false_eq_true, false_and, if_false, true_and, if_true] at h
        split at h
        · exact absurd h (by simp)
        · rename_i hlt
          simp only [Except.ok.injEq] at h
          omega

/-! ## Lemmas on the parsers -/

theorem index_ok (row : List String) (i : Nat) (field : String) (h : row[i]? = some field) :
    index row i = .ok field := by
  unfold index
  rw [h]

theorem index_lt (row : List String) (i : Nat) (h : i < row.length) :
    ∃ field, row[i]? = some field ∧ index row i = .ok field :=
  ⟨row[i], List.getElem?_eq_getElem h, index_ok row i _ (List.getElem?_eq_getElem h)⟩

theorem index_error (row : List String) (i : Nat) (h : row.length ≤ i) :
    index row i = .error (.indexOutOfRange i row.length) := by
  unfold index
  rw [List.getElem?_eq_none h]

theorem parseSpendingLoop_ok (parseFloat : String → Option float64) (rows : List (List String))
    (payments : List payment)
    (h : ∀ row ∈ rows, 3 ≤ row.length ∧
      ∃ field1 cost, row[1]? = some field1 ∧ parseFloat field1 = some cost) :
    ∃ new, parseSpendingLoop parseFloat payments rows = .ok (payments ++ new) ∧
      List.Forall₂ (fun row p => row[2]? = some p.category ∧
        ∃ field1, row[1]? = some field1 ∧ parseFloat field1 = some p.cost) rows new := by
  induction rows generalizing payments with
  | nil => exact ⟨[], by simp [parseSpendingLoop], List.Forall₂.nil⟩
  | cons row rest ih =>
    obtain ⟨hlen, field1, cost, h1, hcost⟩ := h row (List.mem_cons_self _ _)
    obtain ⟨field2, h2, hi2⟩ := index_lt row 2 (by omega)
    obtain ⟨new, hnew, hrel⟩ := ih (payments ++ [{ category := field2, cost := cost }])
      (fun r hr => h r (List.mem_cons_of_mem _ hr))
    refine ⟨{ category := field2, cost := cost } :: new, ?_, ?_⟩
    · simp only [parseSpendingLoop, index_ok row 1 field1 h1, hcost, hi2, hnew]
      simp
    · exact List.Forall₂.cons ⟨h2, field1, h1, hcost⟩ hrel

theorem getElem?_of_index (row : List String) (i : Nat) (field : String)
    (h : index row i = .ok field) : row[i]? = some field := by
  unfold index at h
  cases hg : row[i]? with
  | none => rw [hg] at h; exact absurd h (by simp)
  | some g => rw [hg] at h; simp only [Except.ok.injEq] at h; rw [h]

/-- A successful run of the spending loop made one record per row, in row order. -/
theorem parseSpendingLoop_inv (parseFloat : String → Option float64)
    (rows : List (List String)) (payments result : List payment)
    (h : parseSpendingLoop parseFloat payments rows = .ok result) :
    ∃ new, result = payments ++ new ∧
      List.Forall₂ (fun row p => row[2]? = some p.category ∧
        ∃ field1, row[1]? = some field1 ∧ parseFloat field1 = some p.cost) rows new := by
  induction rows generalizing payments with
  | nil =>
    simp only [parseSpendingLoop, Except.ok.injEq] at h
    exact ⟨[], by simp [h], List.Forall₂.nil⟩
  | cons row rest ih =>
    unfold parseSpendingLoop at h
    cases h1 : index row 1 with
    | error e => rw [h1] at h; exact absurd h (by simp)
    | ok field1 =>
      rw [h1] at h
      cases hc : parseFloat field1 with
      | none => simp only [hc] at h; exact absurd h (by simp)
      | some cost =>
        simp only [hc] at h
        cases h2 : index row 2 with
        | error e => rw [h2] at h; exact absurd h (by simp)
        | ok field2 =>
          rw [h2] at h
          obtain ⟨new, hres, hrel⟩ := ih _ h
          refine ⟨{ category := field2, cost := cost } :: new, by simp [hres], ?_⟩
          exact List.Forall₂.cons
            ⟨getElem?_of_index row 2 field2 h2, field1, getElem?_of_index row 1 field1 h1, hc⟩ hrel

theorem parseSpendingLoop_error (parseFloat : String → Option float64)
    (rows : List (List String)) (payments : List payment)
    (h : ∃ row ∈ rows, ∃ field1, row[1]? = some field1 ∧ parseFloat field1 = none) :
    ∃ e, parseSpendingLoop parseFloat payments rows = .error e := by
  cases hres : parseSpendingLoop parseFloat payments rows with
  | error e => exact ⟨e, rfl⟩
  | ok result =>
    exfalso
    obtain ⟨new, -, hrel⟩ := parseSpendingLoop_inv parseFloat rows payments result hres
    obtain ⟨bad, hbad, f, hf, hpe⟩ := h
    clear hres
    induction hrel with
    | nil => exact absurd hbad (List.not_mem_nil _)
    | cons hhead _ ih =>
      rcases List.mem_cons.mp hbad with e' | hmem
      · subst e'
        obtain ⟨_, g, hg, hok⟩ := hhead
        rw [hf] at hg
        cases hg
        rw [hpe] at hok
        cases hok
      · exact ih hmem

theorem parseSpendingLoop_fatal (parseFloat : String → Option float64)
    (before : List (List String)) (bad : List String) (after : List (List String))
    (payments : List payment) (field1 : String)
    (hbefore : ∀ row ∈ before, 3 ≤ row.length)
    (h1 : bad[1]? = some field1) (hbad : parseFloat field1 = none) :
    parseSpendingLoop parseFloat payments (before ++ bad :: after)
      = .error (.fatal "Error parsing cost") := by
  induction before generalizing payments with
  | nil => simp only [List.nil_append, parseSpendingLoop, index_ok bad 1 field1 h1, hbad]
  | cons row rest ih =>
    have hlen := hbefore row (List.mem_cons_self _ _)
    obtain ⟨f1, _, hi1⟩ := index_lt row 1 (by omega)
    obtain ⟨f2, _, hi2⟩ := index_lt row 2 (by omega)
    simp only [List.cons_append, parseSpendingLoop, hi1, hi2]
    cases hc : parseFloat f1 with
    | none => rfl
    | some cost => exact ih _ (fun r hr => hbefore r (List.mem_cons_of_mem _ hr))

theorem parseIncomeLoop_ok (rows : List (List String)) (groups : List paymentGroup)
    (h : ∀ row ∈ rows, 2 ≤ row.length ∧
      ∃ field1 n, row[1]? = some field1 ∧ IntLiteral field1 n ∧ -2 ^ 31 ≤ n ∧ n ≤ 2 ^ 31 - 1) :
    ∃ new, parseIncomeLoop groups rows = .ok (groups ++ new) ∧
      List.Forall₂ (fun row g => row[0]? = some g.category ∧
        ∃ field1, row[1]? = some field1 ∧ IntLiteral field1 g.cost) rows new := by
  induction rows generalizing groups with
  | nil => exact ⟨[], by simp [parseIncomeLoop], List.Forall₂.nil⟩
  | cons row rest ih =>
    obtain ⟨hlen, field1, n, h1, hlit, hrange⟩ := h row (List.mem_cons_self _ _)
    obtain ⟨field0, h0, hi0⟩ := index_lt row 0 (by omega)
    have hparse : ParseInt field1 32 = .ok n := by
      rw [ParseInt_literal field1 n hlit, if_pos hrange]
    obtain ⟨new, hnew, hrel⟩ := ih (groups ++ [{ category := field0, cost := n }])
      (fun r hr => h r (List.mem_cons_of_mem _ hr))
    refine ⟨{ category := field0, cost := n } :: new, ?_, ?_⟩
    · simp only [parseIncomeLoop, index_ok row 1 field1 h1, hparse, hi0, hnew]
      simp
    · exact List.Forall₂.cons ⟨h0, field1, h1, hlit⟩ hrel

/-- A successful run of the income loop made one group per row, in row order. -/
theorem parseIncomeLoop_inv (rows : List (List String)) (groups result : List paymentGroup)
    (h : parseIncomeLoop groups rows = .ok result) :
    ∃ new, result = groups ++ new ∧
      List.Forall₂ (fun row g => row[0]? = some g.category ∧
        ∃ field1, row[1]? = some field1 ∧ ParseInt field1 32 = .ok g.cost) rows new := by
  induction rows generalizing groups with
  | nil =>
    simp only [parseIncomeLoop, Except.ok.injEq] at h
    exact ⟨[], by simp [h], List.Forall₂.nil⟩
  | cons row rest ih =>
    unfold parseIncomeLoop at h
    cases h1 : index row 1 with
    | error e => rw [h1] at h; exact absurd h (by simp)
    | ok field1 =>
      rw [h1] at h
      cases hc : ParseInt field1 32 with
      | error e => simp only [hc] at h; exact absurd h (by simp)
      | ok amount =>
        simp only [hc] at h
        cases h0 : index row 0 with
        | error e => rw [h0] at h; exact absurd h (by simp)
        | ok field0 =>
          rw [h0] at h
          obtain ⟨new, hres, hrel⟩ := ih _ h
          refine ⟨{ category := field0, cost := amount } :: new, by simp [hres], ?_⟩
          exact List.Forall₂.cons
            ⟨getElem?_of_index row 0 field0 h0, field1, getElem?_of_index row 1 field1 h1, hc⟩ hrel

theorem parseIncomeLoop_error (rows : List (List String)) (groups : List paymentGroup)
    (h : ∃ row ∈ rows, ∃ field1 e, row[1]? = some field1 ∧ ParseInt field1 32 = .error e) :
    ∃ e, parseIncomeLoop groups rows = .error e := by
  cases hres : parseIncomeLoop groups rows with
  | error e => exact ⟨e, rfl⟩
  | ok result =>
    exfalso
    obtain ⟨new, -, hrel⟩ := parseIncomeLoop_inv rows groups result hres
    obtain ⟨bad, hbad, f, e, hf, hpe⟩ := h
    clear hres
    induction hrel with
    | nil => exact absurd hbad (List.not_mem_nil _)
    | cons hhead _ ih =>
      rcases List.mem_cons.mp hbad with e' | hmem
      · subst e'
        obtain ⟨_, g, hg, hok⟩ := hhead
        rw [hf] at hg
        cases hg
        rw [hpe] at hok
        cases hok
      · exact ih hmem

theorem parseIncomeLoop_fatal (before : List (List String)) (bad : List String)
    (after : List (List String)) (groups : List paymentGroup) (field1 : String) (e : NumError)
    (hbefore : ∀ row ∈ before, 2 ≤ row.length)
    (h1 : bad[1]? = some field1) (hbad : ParseInt field1 32 = .error e) :
    parseIncomeLoop groups (before ++ bad :: after) = .error (.fatal "Error parsing cost") := by
  induction before generalizing groups with
  | nil => simp only [List.nil_append, parseIncomeLoop, index_ok bad 1 field1 h1, hbad]
  | cons row rest ih =>
    have hlen := hbefore row (List.mem_cons_self _ _)
    obtain ⟨f1, _, hi1⟩ := index_lt row 1 (by omega)
    obtain ⟨f0, _, hi0⟩ := index_lt row 0 (by omega)
    simp only [List.cons_append, parseIncomeLoop, hi1, hi0]
    cases hc : ParseInt f1 32 with
    | error e' => rfl
    | ok amount => exact ih _ (fun r hr => hbefore r (List.mem_cons_of_mem _ hr))

/-! ## The parsers -/

/-- C4: when every row after the first has at least 3 fields and a field 1 that
`ParseFloat` accepts, `parseSpendingCSV` returns one record per row after the first, in
row order: the category is field 2 as it is, the cost the parsed value of field 1.  The
first row is dropped whatever it holds. -/
theorem parseSpendingCSV_records (parseFloat : String → Option float64)
    (header : List String) (rows : List (List String))
    (h : ∀ row ∈ rows, 3 ≤ row.length ∧
      ∃ field1 cost, row[1]? = some field1 ∧ parseFloat field1 = some cost) :
    ∃ payments, parseSpendingCSV parseFloat (header :: rows) = .ok payments ∧
      payments.length = rows.length ∧
      List.Forall₂ (fun row p => row[2]? = some p.category ∧
        ∃ field1, row[1]? = some field1 ∧ parseFloat field1 = some p.cost) rows payments := by
  obtain ⟨new, hnew, hrel⟩ := parseSpendingLoop_ok parseFloat rows [] h
  exact ⟨new, by simpa [parseSpendingCSV] using hnew, hrel.length_eq.symm, hrel⟩

/-- Witness of C4: the header `date,cost,category` and the row `2024-01-01,10.00,Food`
give the one record of category `Food` and cost 10. -/
theorem parseSpendingCSV_records_witness :
    (∀ row ∈ [["2024-01-01", "10.00", "Food"]], 3 ≤ row.length ∧
      ∃ field1 cost, row[1]? = some field1 ∧ ParseFloat field1 = some cost) ∧
    (∃ payments, parseSpendingCSV ParseFloat
        (["date", "cost", "category"] :: [["2024-01-01", "10.00", "Food"]]) = .ok payments ∧
      payments.length = [["2024-01-01", "10.00", "Food"]].length ∧
      List.Forall₂ (fun row p => row[2]? = some p.category ∧
        ∃ field1, row[1]? = some field1 ∧ ParseFloat field1 = some p.cost)
        [["2024-01-01", "10.00", "Food"]] payments) ∧
    parseSpendingCSV ParseFloat [["date", "cost", "category"], ["2024-01-01", "10.00", "Food"]]
      = .ok [{ category := "Food", cost := float64.ofInt 10 }] :=
  have hrows : ∀ row ∈ [["2024-01-01", "10.00", "Food"]], 3 ≤ row.length ∧
      ∃ field1 cost, row[1]? = some field1 ∧ ParseFloat field1 = some cost := by
    intro row hrow
    rw [List.mem_singleton] at hrow
    subst hrow
    exact ⟨by decide, "10.00", float64.ofInt 10, rfl, by decide!⟩
  ⟨hrows, parseSpendingCSV_records ParseFloat _ _ hrows, by decide!⟩

/-- C5 as stated fails: in the input below the cost `abc` of the last row does not
parse, yet the run ends with the index panic of the row before it, which has two
fields, not with the parse error. -/
theorem parseSpendingCSV_parse_error_counterexample :
    (∃ row ∈ [["2024-01-01", "1.50"], ["2024-01-02", "abc"]],
      ∃ field1, row[1]? = some field1 ∧ ParseFloat field1 = none) ∧
    parseSpendingCSV ParseFloat [["date", "cost"], ["2024-01-01", "1.50"], ["2024-01-02", "abc"]]
      = .error (.indexOutOfRange 2 2) ∧
    parseSpendingCSV ParseFloat [["date", "cost"], ["2024-01-01", "1.50"], ["2024-01-02", "abc"]]
      ≠ .error (.fatal "Error parsing cost") :=
  ⟨⟨["2024-01-02", "abc"], by simp, "abc", rfl, by decide!⟩, by decide!, by decide!⟩

/-- C5, amended: when the cost field of some row after the header does not parse,
`parseSpendingCSV` fails as a whole and returns no records; the failure is the parse
error `Error parsing cost` when every row before the first such row has at least 3
fields (a shorter row before it ends the run with its index panic instead).  The same
holds for `parseIncomeCSV`, with the amount field and rows of at least 2 fields. -/
theorem parse_all_or_nothing (parseFloat : String → Option float64) :
    (∀ header rows,
      (∃ row ∈ rows, ∃ field1, row[1]? = some field1 ∧ parseFloat field1 = none) →
      ∃ e, parseSpendingCSV parseFloat (header :: rows) = .error e) ∧
    (∀ header before bad after field1,
      (∀ row ∈ before, 3 ≤ row.length) → bad[1]? = some field1 → parseFloat field1 = none →
      parseSpendingCSV parseFloat (header :: (before ++ bad :: after))
        = .error (.fatal "Error parsing cost")) ∧
    (∀ rows,
      (∃ row ∈ rows, ∃ field1 e, row[1]? = some field1 ∧ ParseInt field1 32 = .error e) →
      ∃ e, parseIncomeCSV rows = .error e) ∧
    (∀ before bad after field1 e,
      (∀ row ∈ before, 2 ≤ row.length) → bad[1]? = some field1 →
      ParseInt field1 32 = .error e →
      parseIncomeCSV (before ++ bad :: after) = .error (.fatal "Error parsing cost")) :=
  ⟨fun _ rows h => parseSpendingLoop_error parseFloat rows [] h,
   fun _ before bad after field1 hb h1 hbad =>
     parseSpendingLoop_fatal parseFloat before bad after [] field1 hb h1 hbad,
   fun rows h => parseIncomeLoop_error rows [] h,
   fun before bad after field1 e hb h1 hbad =>
     parseIncomeLoop_fatal before bad after [] field1 e hb h1 hbad⟩

/-- Witness of the amended C5: a spending row with the cost field `abc` after a row that
parses, and an income row with the amount `abc`. -/
theorem parse_all_or_nothing_witness :
    parseSpendingCSV ParseFloat
      (["date", "cost", "category"] ::
        ([["2024-01-01", "10.00", "Food"]] ++ ["2024-01-02", "abc", "Rent"] :: []))
      = .error (.fatal "Error parsing cost") ∧
    parseIncomeCSV ([["Salary", "2000"]] ++ ["Bonus", "abc"] :: [])
      = .error (.fatal "Error parsing cost") :=
  ⟨(parse_all_or_nothing ParseFloat).2.1 ["date", "cost", "category"]
      [["2024-01-01", "10.00", "Food"]] ["2024-01-02", "abc", "Rent"] [] "abc"
      (by intro row hrow; rw [List.mem_singleton] at hrow; subst hrow; decide) rfl (by decide!),
   (parse_all_or_nothing ParseFloat).2.2.2 [["Salary", "2000"]] ["Bonus", "abc"] [] "abc"
      .ErrSyntax
      (by intro row hrow; rw [List.mem_singleton] at hrow; subst hrow; decide) rfl (by decide!)⟩

/-- C6: when every row has at least 2 fields and a field 1 that is a base-10 integer
literal in the signed 32-bit range, `parseIncomeCSV` returns one group per row, in row
order and with no row skipped: the category is field 0, the amount the integer that
field 1 denotes. -/
theorem parseIncomeCSV_groups (rows : List (List String))
    (h : ∀ row ∈ rows, 2 ≤ row.length ∧
      ∃ field1 n, row[1]? = some field1 ∧ IntLiteral field1 n ∧ -2 ^ 31 ≤ n ∧ n ≤ 2 ^ 31 - 1) :
    ∃ groups, parseIncomeCSV rows = .ok groups ∧ groups.length = rows.length ∧
      List.Forall₂ (fun row g => row[0]? = some g.category ∧
        ∃ field1, row[1]? = some field1 ∧ IntLiteral field1 g.cost) rows groups := by
  obtain ⟨new, hnew, hrel⟩ := parseIncomeLoop_ok rows [] h
  exact ⟨new, by simpa [parseIncomeCSV] using hnew, hrel.length_eq.symm, hrel⟩

/-- Witness of C6: two rows, the first of which is not skipped. -/
theorem parseIncomeCSV_groups_witness :
    (∀ row ∈ [["Salary", "2000"], ["Refund", "-15"]], 2 ≤ row.length ∧
      ∃ field1 n, row[1]? = some field1 ∧ IntLiteral field1 n ∧ -2 ^ 31 ≤ n ∧ n ≤ 2 ^ 31 - 1) ∧
    (∃ groups, parseIncomeCSV [["Salary", "2000"], ["Refund", "-15"]] = .ok groups ∧
      groups.length = [["Salary", "2000"], ["Refund", "-15"]].length ∧
      List.Forall₂ (fun row g => row[0]? = some g.category ∧
        ∃ field1, row[1]? = some field1 ∧ IntLiteral field1 g.cost)
        [["Salary", "2000"], ["Refund", "-15"]] groups) ∧
    parseIncomeCSV [["Salary", "2000"], ["Refund", "-15"]]
      = .ok [{ category := "Salary", cost := 2000 }, { category := "Refund", cost := -15 }] :=
  have hrows : ∀ row ∈ [["Salary", "2000"], ["Refund", "-15"]], 2 ≤ row.length ∧
      ∃ field1 n, row[1]? = some field1 ∧ IntLiteral field1 n ∧
        -2 ^ 31 ≤ n ∧ n ≤ 2 ^ 31 - 1 := by
    intro row hrow
    rcases List.mem_cons.mp hrow with e | hrow
    · subst e
      exact ⟨by decide, "2000", 2000, rfl,
        ⟨"2000".toList, by decide, by decide, Or.inl ⟨rfl, by decide⟩⟩, by decide, by decide⟩
    · rw [List.mem_singleton] at hrow
      subst hrow
      exact ⟨by decide, "-15", -15, rfl,
        ⟨"15".toList, by decide, by decide, Or.inr (Or.inr ⟨rfl, by decide⟩)⟩,
        by decide, by decide⟩
  ⟨hrows, parseIncomeCSV_groups _ hrows, by decide!⟩

theorem forall₂_right_mem {α β : Type} (R : α → β → Prop) (xs : List α) (ys : List β)
    (h : List.Forall₂ R xs ys) (y : β) (hy : y ∈ ys) : ∃ x ∈ xs, R x y := by
  induction h with
  | nil => exact absurd hy (List.not_mem_nil _)
  | cons hhead _ ih =>
    rcases List.mem_cons.mp hy with e | hmem
    · subst e
      exact ⟨_, List.mem_cons_self _ _, hhead⟩
    · obtain ⟨x, hx, hr⟩ := ih hmem
      exact ⟨x, List.mem_cons_of_mem _ hx, hr⟩

/-- C7: for an amount field that is a base-10 integer literal denoting `n`,
`parseIncomeCSV` accepts the row exactly when `-2^31 ≤ n ≤ 2^31 - 1`, and then the
amount is `n`; outside that range the run ends with the parse error.  Every amount of a
group that is returned lies in the signed 32-bit range. -/
theorem parseIncomeCSV_int32 (s : String) (n : Int) (h : IntLiteral s n) (category : String) :
    ((∃ groups, parseIncomeCSV [[category, s]] = .ok groups) ↔ (-2 ^ 31 ≤ n ∧ n ≤ 2 ^ 31 - 1)) ∧
    ((-2 ^ 31 ≤ n ∧ n ≤ 2 ^ 31 - 1) →
      parseIncomeCSV [[category, s]] = .ok [{ category := category, cost := n }]) ∧
    (¬ (-2 ^ 31 ≤ n ∧ n ≤ 2 ^ 31 - 1) →
      parseIncomeCSV [[category, s]] = .error (.fatal "Error parsing cost")) ∧
    (∀ rows groups, parseIncomeCSV rows = .ok groups →
      ∀ g ∈ groups, -2 ^ 31 ≤ g.cost ∧ g.cost ≤ 2 ^ 31 - 1) := by
  have hin : (-2 ^ 31 ≤ n ∧ n ≤ 2 ^ 31 - 1) →
      parseIncomeCSV [[category, s]] = .ok [{ category := category, cost := n }] := by
    intro hr
    have hp : ParseInt s 32 = .ok n := by rw [ParseInt_literal s n h, if_pos hr]
    simp [parseIncomeCSV, parseIncomeLoop, index, hp]
  have hout : ¬ (-2 ^ 31 ≤ n ∧ n ≤ 2 ^ 31 - 1) →
      parseIncomeCSV [[category, s]] = .error (.fatal "Error parsing cost") := by
    intro hr
    have hp : ParseInt s 32 = .error .ErrRange := by rw [ParseInt_literal s n h, if_neg hr]
    simp [parseIncomeCSV, parseIncomeLoop, index, hp]
  refine ⟨⟨?_, fun hr => ⟨_, hin hr⟩⟩, hin, hout, ?_⟩
  · rintro ⟨groups, hg⟩
    by_contra hr
    rw [hout hr] at hg
    cases hg
  · intro rows groups hg g hmem
    obtain ⟨new, hres, hrel⟩ := parseIncomeLoop_inv rows [] groups hg
    rw [List.nil_append] at hres
    subst hres
    obtain ⟨row, _, _, field1, _, hp⟩ := forall₂_right_mem _ rows groups hrel g hmem
    exact ParseInt_ok_range field1 g.cost hp

/-- Witness of C7: the amounts just outside and just inside the signed 32-bit range. -/
theorem parseIncomeCSV_int32_witness :
    IntLiteral "2147483648" 2147483648 ∧
    parseIncomeCSV [["Salary", "2147483648"]] = .error (.fatal "Error parsing cost") ∧
    parseIncomeCSV [["Salary", "-2147483649"]] = .error (.fatal "Error parsing cost") ∧
    parseIncomeCSV [["Salary", "2147483647"]] = .ok [{ category := "Salary", cost := 2147483647 }] ∧
    parseIncomeCSV [["Salary", "-2147483648"]]
      = .ok [{ category := "Salary", cost := -2147483648 }] :=
  have hlit : IntLiteral "2147483648" 2147483648 :=
    ⟨"2147483648".toList, by decide, by decide, Or.inl ⟨rfl, by decide⟩⟩
  ⟨hlit, (parseIncomeCSV_int32 "2147483648" 2147483648 hlit "Salary").2.2.1 (by decide),
    by decide!, by decide!, by decide!⟩

/-! ## The series builders -/

theorem foldl_append_singleton {α β : Type} (f : α → β) (xs : List α) (init : List β) :
    xs.foldl (fun items x => items ++ [f x]) init = init ++ xs.map f := by
  induction xs generalizing init with
  | nil => simp
  | cons x xs ih => rw [List.foldl_cons, ih]; simp

theorem spendingPieData_eq_map (visited : List (String × float64)) :
    spendingPieData visited = visited.map (fun e =>
      ({ Name := e.1 ++ ": £" ++ fmtF2 e.2, Value := .float e.2,
         Label := some { Show := some false } } : PieData)) := by
  unfold spendingPieData
  have := foldl_append_singleton (fun e : String × float64 =>
      ({ Name := e.1 ++ ": £" ++ fmtF2 e.2, Value := .float e.2,
         Label := some { Show := some false } } : PieData)) visited []
  simpa [spendingPieStep] using this

theorem incomePieData_eq_map (groups : List paymentGroup) :
    incomePieData groups = groups.map (fun g =>
      ({ Name := g.category ++ ": £" ++ fmtD g.cost, Value := .int g.cost,
         Label := some { Show := some false } } : PieData)) := by
  unfold incomePieData
  have := foldl_append_singleton (fun g : paymentGroup =>
      ({ Name := g.category ++ ": £" ++ fmtD g.cost, Value := .int g.cost,
         Label := some { Show := some false } } : PieData)) groups []
  simpa [incomePieStep] using this

/-- Rounding to nearest: the rounded quotient is within half a unit of the quotient. -/
theorem roundHalfEven_nearest (num den : Nat) (hd : 0 < den) :
    2 * num ≤ (2 * float64.roundHalfEven num den + 1) * den ∧
    2 * float64.roundHalfEven num den * den ≤ 2 * num + den := by
  have hdm := Nat.div_add_mod num den
  have hlt := Nat.mod_lt num hd
  unfold float64.roundHalfEven
  simp only
  generalize num / den = q at *
  generalize num % den = r at *
  have hqd : den * q = q * den := Nat.mul_comm _ _
  split
  · rename_i hcond
    have e1 : (2 * (q + 1) + 1) * den = 2 * (q * den) + 3 * den := by ring
    have e2 : 2 * (q + 1) * den = 2 * (q * den) + 2 * den := by ring
    rw [e1, e2]
    rcases hcond with h | ⟨h, _⟩ <;> constructor <;> omega
  · have e1 : (2 * q + 1) * den = 2 * (q * den) + den := by ring
    have e2 : 2 * q * den = 2 * (q * den) := by ring
    rw [e1, e2]
    rename_i hcond
    have h1 : ¬ (den < 2 * r) := fun h => hcond (Or.inl h)
    constructor <;> omega

theorem digitChar_isDigit (d : Nat) (hd : d < 10) : (Nat.digitChar d).isDigit = true := by
  interval_cases d <;> decide

theorem toDigitsCore_isDigit (fuel n : Nat) (ds : List Char)
    (hds : ∀ c ∈ ds, c.isDigit = true) :
    ∀ c ∈ Nat.toDigitsCore 10 fuel n ds, c.isDigit = true := by
  induction fuel generalizing n ds with
  | zero => simpa [Nat.toDigitsCore] using hds
  | succ fuel ih =>
    have hcons : ∀ c ∈ Nat.digitChar (n % 10) :: ds, c.isDigit = true := by
      intro c hc
      rcases List.mem_cons.mp hc with e | hmem
      · rw [e]
        exact digitChar_isDigit (n % 10) (Nat.mod_lt n (by decide))
      · exact hds c hmem
    unfold Nat.toDigitsCore
    simp only
    split
    · exact hcons
    · exact ih _ _ hcons

theorem toDigitsCore_ne_nil (fuel n : Nat) (ds : List Char) (hds : ds ≠ []) :
    Nat.toDigitsCore 10 fuel n ds ≠ [] := by
  induction fuel generalizing n ds with
  | zero => simpa [Nat.toDigitsCore] using hds
  | succ fuel ih =>
    unfold Nat.toDigitsCore
    simp only
    split
    · exact List.cons_ne_nil _ _
    · exact ih _ _ (List.cons_ne_nil _ _)

theorem repr_digits (n : Nat) :
    (Nat.repr n).toList ≠ [] ∧ ∀ c ∈ (Nat.repr n).toList, c.isDigit = true := by
  constructor
  · show Nat.toDigitsCore 10 (n + 1) n [] ≠ []
    unfold Nat.toDigitsCore
    simp only
    split
    · exact List.cons_ne_nil _ _
    · exact toDigitsCore_ne_nil _ _ _ (List.cons_ne_nil _ _)
  · show ∀ c ∈ Nat.toDigitsCore 10 (n + 1) n [], c.isDigit = true
    exact toDigitsCore_isDigit _ _ [] (fun c hc => absurd hc (List.not_mem_nil _))

theorem repr_one_digit (k : Nat) (hk : k < 10) : (Nat.repr k).toList = [Nat.digitChar k] := by
  show Nat.toDigitsCore 10 (k + 1) k [] = [Nat.digitChar k]
  unfold Nat.toDigitsCore
  simp only
  rw [Nat.mod_eq_of_lt hk, if_pos (Nat.div_eq_of_lt hk)]

/-- The number printed by `%.2f` for a finite value has exactly two decimal places. -/
theorem fmtF2_twoDecimals (neg : Bool) (n : Nat) : TwoDecimals (fmtF2 (.fin neg n)) := by
  have hw := repr_digits (hundredths n / 100)
  have h1 : hundredths n / 10 % 10 < 10 := Nat.mod_lt _ (by decide)
  have h2 : hundredths n % 10 < 10 := Nat.mod_lt _ (by decide)
  refine ⟨neg, (Nat.repr (hundredths n / 100)).toList, Nat.digitChar (hundredths n / 10 % 10),
    Nat.digitChar (hundredths n % 10), hw.1, hw.2, digitChar_isDigit _ h1,
    digitChar_isDigit _ h2, ?_⟩
  have e1 := repr_one_digit _ h1
  have e2 := repr_one_digit _ h2
  unfold fmtF2
  simp only [String.toList, String.data_append] at e1 e2 ⊢
  rw [e1, e2]
  cases neg <;> simp

/-- A string without a point does not write a number with two decimal places. -/
theorem not_twoDecimals_of_no_point (s : String) (h : '.' ∉ s.toList) : ¬ TwoDecimals s := by
  rintro ⟨neg, whole, d₁, d₂, _, _, _, _, hs⟩
  apply h
  rw [hs]
  simp

/-- C8 as stated fails: a total can be infinite or not a number (the cost `Inf` parses,
and so does `NaN`), and `%.2f` then prints `+Inf` or `NaN`, which is not the total with
two decimal places: the labels are `x: £+Inf` and `y: £NaN`. -/
theorem spendingPieData_two_decimals_counterexample :
    parseSpendingCSV ParseFloat
      [["date", "cost", "category"], ["2024-01-01", "Inf", "x"], ["2024-01-02", "NaN", "y"]]
      = .ok [{ category := "x", cost := .inf false }, { category := "y", cost := .nan }] ∧
    groupPaymentsByCategory [{ category := "x", cost := .inf false }, { category := "y", cost := .nan }]
      = [("x", .inf false), ("y", .nan)] ∧
    spendingPieData [("x", .inf false), ("y", .nan)]
      = [{ Name := "x: £+Inf", Value := .float (.inf false), Label := some { Show := some false } },
         { Name := "y: £NaN", Value := .float .nan, Label := some { Show := some false } }] ∧
    ¬ TwoDecimals (fmtF2 (.inf false)) ∧
    ¬ TwoDecimals (fmtF2 .nan) :=
  ⟨by decide!, by decide!, by decide!,
    not_twoDecimals_of_no_point _ (by decide), not_twoDecimals_of_no_point _ (by decide)⟩

/-- C8, amended: for every category-totals mapping, in whichever order its entries are
visited, `spendingPieData` gives one element per entry and nothing else: the series is,
up to order, the image of the entries under `(category, total) ↦ (category ++ ": £" ++
total as printed by %.2f, total)`, with no entry dropped, merged or moved by its value.
A finite total is printed with exactly two decimal places, and the number printed is the
total rounded to the nearest hundredth; an infinite total is printed `+Inf` or `-Inf`,
and a total that is not a number `NaN`. -/
theorem spendingPieData_image (m : GoMap) (visited : List (String × float64))
    (hv : m.IsRange visited) :
    (spendingPieData visited).Perm (m.map (fun e =>
      ({ Name := e.1 ++ ": £" ++ fmtF2 e.2, Value := .float e.2,
         Label := some { Show := some false } } : PieData))) ∧
    (spendingPieData visited).length = m.length ∧
    spendingPieData visited = visited.map (fun e =>
      ({ Name := e.1 ++ ": £" ++ fmtF2 e.2, Value := .float e.2,
         Label := some { Show := some false } } : PieData)) ∧
    (∀ neg n,
      TwoDecimals (fmtF2 (.fin neg n)) ∧
      fmtF2 (.fin neg n) = (if neg then "-" else "") ++ Nat.repr (hundredths n / 100) ++ "." ++
        Nat.repr (hundredths n / 10 % 10) ++ Nat.repr (hundredths n % 10) ∧
      2 * (n * 100) ≤ (2 * hundredths n + 1) * float64.unit ∧
      2 * hundredths n * float64.unit ≤ 2 * (n * 100) + float64.unit) ∧
    fmtF2 (.inf false) = "+Inf" ∧ fmtF2 (.inf true) = "-Inf" ∧ fmtF2 .nan = "NaN" := by
  have hmap := spendingPieData_eq_map visited
  refine ⟨?_, ?_, hmap, ?_, rfl, rfl, rfl⟩
  · rw [hmap]
    exact List.Perm.map _ hv
  · rw [hmap, List.length_map]
    exact List.Perm.length_eq hv
  · intro neg n
    exact ⟨fmtF2_twoDecimals neg n, rfl,
      roundHalfEven_nearest (n * 100) float64.unit float64.unit_pos⟩

/-- Witness of the amended C8: the total 12.5 gives the label `Food: £12.50`; a zero total
and a negative total are emitted too; the entries are visited in an order that is not
the order of insertion. -/
theorem spendingPieData_image_witness :
    GoMap.IsRange
      [("Food", .fin false (25 * float64.unit / 2)), ("Gift", .ofInt 0), ("Refund", .ofInt (-3))]
      [("Refund", .ofInt (-3)), ("Food", .fin false (25 * float64.unit / 2)), ("Gift", .ofInt 0)] ∧
    (spendingPieData
      [("Refund", .ofInt (-3)), ("Food", .fin false (25 * float64.unit / 2)),
        ("Gift", .ofInt 0)]).length = 3 ∧
    spendingPieData
      [("Refund", .ofInt (-3)), ("Food", .fin false (25 * float64.unit / 2)), ("Gift", .ofInt 0)]
      = [{ Name := "Refund: £-3.00", Value := .float (.ofInt (-3)),
           Label := some { Show := some false } },
         { Name := "Food: £12.50", Value := .float (.fin false (25 * float64.unit / 2)),
           Label := some { Show := some false } },
         { Name := "Gift: £0.00", Value := .float (.ofInt 0),
           Label := some { Show := some false } }] ∧
    ParseFloat "12.5" = some (.fin false (25 * float64.unit / 2)) :=
  have hrange : GoMap.IsRange
      [("Food", .fin false (25 * float64.unit / 2)), ("Gift", .ofInt 0), ("Refund", .ofInt (-3))]
      [("Refund", .ofInt (-3)), ("Food", .fin false (25 * float64.unit / 2)),
        ("Gift", .ofInt 0)] :=
    List.mem_permutations'.mp (by decide!)
  ⟨hrange, (spendingPieData_image _ _ hrange).2.1, by decide!, by decide!⟩

/-- C9: `incomePieData` returns a sequence of the same length and in the same order as
the groups: the i-th element has the amount of the i-th group as its value, and as its
label the category, `": £"` and the amount in base 10 without decimals, with a leading
minus sign when it is negative. -/
theorem incomePieData_series (groups : List paymentGroup) :
    incomePieData groups = groups.map (fun g =>
      ({ Name := g.category ++ ": £" ++ fmtD g.cost, Value := .int g.cost,
         Label := some { Show := some false } } : PieData)) ∧
    (incomePieData groups).length = groups.length ∧
    (∀ (i : Nat) (group : paymentGroup), groups[i]? = some group →
      ∃ item : PieData, (incomePieData groups)[i]? = some item ∧
        item.Value = .int group.cost ∧
        item.Name = group.category ++ ": £" ++ fmtD group.cost) ∧
    (∀ k : Nat, fmtD (k : Int) = Nat.repr k ∧
      fmtD (-((k + 1 : Nat) : Int)) = "-" ++ Nat.repr (k + 1)) ∧
    incomePieData [{ category := "Salary", cost := 2000 }]
      = [{ Name := "Salary: £2000", Value := .int 2000, Label := some { Show := some false } }] ∧
    incomePieData [{ category := "Refund", cost := -15 }]
      = [{ Name := "Refund: £-15", Value := .int (-15), Label := some { Show := some false } }] := by
  have hmap := incomePieData_eq_map groups
  refine ⟨hmap, by rw [hmap, List.length_map], ?_, ?_, by decide!, by decide!⟩
  · intro i group hi
    rw [hmap, List.getElem?_map, hi]
    exact ⟨_, rfl, rfl, rfl⟩
  · intro k
    constructor
    · unfold fmtD
      rw [if_neg (by omega)]
      rfl
    · unfold fmtD
      rw [if_pos (by omega)]
      rfl

/-- C10: when the income input parses, the income pipeline gives one series element per
input row, in row order: the element of a row is labelled with field 0 of that row and
the amount parsed from field 1 of that row, and has that amount as its value.  Rows of
the same category stay separate elements. -/
theorem income_pipeline (rows : List (List String)) (groups : List paymentGroup)
    (h : parseIncomeCSV rows = .ok groups) :
    (incomePieData groups).length = rows.length ∧
    List.Forall₂ (fun row item =>
      ∃ category field1 amount, row[0]? = some category ∧ row[1]? = some field1 ∧
        ParseInt field1 32 = .ok amount ∧
        item.Name = category ++ ": £" ++ fmtD amount ∧ item.Value = .int amount)
      rows (incomePieData groups) := by
  obtain ⟨new, hres, hrel⟩ := parseIncomeLoop_inv rows [] groups h
  rw [List.nil_append] at hres
  subst hres
  have hmap := incomePieData_eq_map groups
  have hall : List.Forall₂ (fun row item =>
      ∃ category field1 amount, row[0]? = some category ∧ row[1]? = some field1 ∧
        ParseInt field1 32 = .ok amount ∧
        item.Name = category ++ ": £" ++ fmtD amount ∧ item.Value = .int amount)
      rows (incomePieData groups) := by
    rw [hmap]
    clear h hmap
    induction hrel with
    | nil => exact List.Forall₂.nil
    | cons hhead _ ih =>
      obtain ⟨h0, field1, h1, hp⟩ := hhead
      exact List.Forall₂.cons ⟨_, field1, _, h0, h1, hp, rfl, rfl⟩ ih
  exact ⟨hall.length_eq.symm, hall⟩

/-- Witness of C10: the rows `Salary,2000` and `Salary,500` give the two elements
labelled `Salary: £2000` and `Salary: £500`, not one element for 2500. -/
theorem income_pipeline_witness :
    parseIncomeCSV [["Salary", "2000"], ["Salary", "500"]]
      = .ok [{ category := "Salary", cost := 2000 }, { category := "Salary", cost := 500 }] ∧
    (incomePieData
      [{ category := "Salary", cost := 2000 }, { category := "Salary", cost := 500 }]).length
      = [["Salary", "2000"], ["Salary", "500"]].length ∧
    incomePieData [{ category := "Salary", cost := 2000 }, { category := "Salary", cost := 500 }]
      = [{ Name := "Salary: £2000", Value := .int 2000, Label := some { Show := some false } },
         { Name := "Salary: £500", Value := .int 500, Label := some { Show := some false } }] :=
  have hparse : parseIncomeCSV [["Salary", "2000"], ["Salary", "500"]]
      = .ok [{ category := "Salary", cost := 2000 }, { category := "Salary", cost := 500 }] := by
    decide!
  ⟨hparse, (income_pipeline _ _ hparse).1, by decide!⟩

/-! ## Degenerate and malformed inputs -/

/-- C11: for a spending input of exactly one row, whatever its fields, the spending
pipeline succeeds: `parseSpendingCSV` returns no record, `groupPaymentsByCategory` of no
record returns the empty mapping, and `spendingPieData` of the empty mapping returns the
empty series. -/
theorem header_only_pipeline (parseFloat : String → Option float64) (header : List String) :
    parseSpendingCSV parseFloat [header] = .ok [] ∧
    groupPaymentsByCategory [] = [] ∧
    (∀ visited, GoMap.IsRange (groupPaymentsByCategory []) visited →
      visited = [] ∧ spendingPieData visited = []) ∧
    (∃ payments, parseSpendingCSV parseFloat [header] = .ok payments ∧
      spendingPieData (groupPaymentsByCategory payments) = []) := by
  refine ⟨rfl, rfl, ?_, ⟨[], rfl, rfl⟩⟩
  intro visited hv
  have hnil : visited = [] := List.Perm.eq_nil hv
  subst hnil
  exact ⟨rfl, rfl⟩

theorem forall₂_left_mem {α β : Type} (R : α → β → Prop) (xs : List α) (ys : List β)
    (h : List.Forall₂ R xs ys) (x : α) (hx : x ∈ xs) : ∃ y ∈ ys, R x y := by
  induction h with
  | nil => exact absurd hx (List.not_mem_nil _)
  | cons hhead _ ih =>
    rcases List.mem_cons.mp hx with e | hmem
    · subst e
      exact ⟨_, List.mem_cons_self _ _, hhead⟩
    · obtain ⟨y, hy, hr⟩ := ih hmem
      exact ⟨y, List.mem_cons_of_mem _ hy, hr⟩

theorem length_of_getElem? (row : List String) (i : Nat) (field : String)
    (h : row[i]? = some field) : i < row.length := by
  by_contra hlt
  rw [List.getElem?_eq_none (Nat.le_of_not_lt hlt)] at h
  cases h

/-- The rows of a spending input that parses all have three fields or more. -/
theorem parseSpendingLoop_rows_long (parseFloat : String → Option float64)
    (rows : List (List String)) (payments result : List payment)
    (h : parseSpendingLoop parseFloat payments rows = .ok result) :
    result.length = payments.length + rows.length ∧ ∀ row ∈ rows, 3 ≤ row.length := by
  obtain ⟨new, hres, hrel⟩ := parseSpendingLoop_inv parseFloat rows payments result h
  refine ⟨by rw [hres, List.length_append, hrel.length_eq], ?_⟩
  intro row hrow
  obtain ⟨p, _, h2, _⟩ := forall₂_left_mem _ rows new hrel row hrow
  exact length_of_getElem? row 2 _ h2

/-- The rows of an income input that parses all have two fields or more. -/
theorem parseIncomeLoop_rows_long (rows : List (List String)) (groups result : List paymentGroup)
    (h : parseIncomeLoop groups rows = .ok result) :
    result.length = groups.length + rows.length ∧ ∀ row ∈ rows, 2 ≤ row.length := by
  obtain ⟨new, hres, hrel⟩ := parseIncomeLoop_inv rows groups result h
  refine ⟨by rw [hres, List.length_append, hrel.length_eq], ?_⟩
  intro row hrow
  obtain ⟨g, _, _, field1, h1, _⟩ := forall₂_left_mem _ rows new hrel row hrow
  exact length_of_getElem? row 1 _ h1

/-- What a too short row does when the rows before it are read without a fault: the
index expression that misses its field ends the run. -/
theorem parseSpendingLoop_short_row (parseFloat : String → Option float64)
    (before : List (List String)) (bad : List String) (after : List (List String))
    (payments : List payment)
    (hbefore : ∀ row ∈ before, 3 ≤ row.length ∧
      ∃ field1 cost, row[1]? = some field1 ∧ parseFloat field1 = some cost) :
    (bad.length < 2 → parseSpendingLoop parseFloat payments (before ++ bad :: after)
      = .error (.indexOutOfRange 1 bad.length)) ∧
    (bad.length = 2 → (∃ field1 cost, bad[1]? = some field1 ∧ parseFloat field1 = some cost) →
      parseSpendingLoop parseFloat payments (before ++ bad :: after)
        = .error (.indexOutOfRange 2 2)) := by
  induction before generalizing payments with
  | nil =>
    constructor
    · intro hlen
      simp only [List.nil_append, parseSpendingLoop, index_error bad 1 (by omega)]
    · rintro hlen ⟨field1, cost, h1, hcost⟩
      have h2 := index_error bad 2 (by omega)
      rw [hlen] at h2
      simp only [List.nil_append, parseSpendingLoop, index_ok bad 1 field1 h1, hcost, h2]
  | cons row rest ih =>
    obtain ⟨hlen, field1, cost, h1, hcost⟩ := hbefore row (List.mem_cons_self _ _)
    obtain ⟨field2, _, hi2⟩ := index_lt row 2 (by omega)
    have ih' := ih (payments ++ [{ category := field2, cost := cost }])
      (fun r hr => hbefore r (List.mem_cons_of_mem _ hr))
    simp only [List.cons_append, parseSpendingLoop, index_ok row 1 field1 h1, hcost, hi2]
    exact ih'

/-- C12 as stated fails: in the first input below every row has two fields, as in a
file of two columns, so the row after the header is too short; the run ends with the
parse error of its cost `abc`, the very fault of the row of three fields with that
cost in the second input. -/
theorem short_row_counterexample :
    ["2024-01-01", "abc"].length < 3 ∧
    parseSpendingCSV ParseFloat [["date", "cost"], ["2024-01-01", "abc"]]
      = .error (.fatal "Error parsing cost") ∧
    parseSpendingCSV ParseFloat [["date", "cost", "category"], ["2024-01-01", "abc", "Food"]]
      = .error (.fatal "Error parsing cost") :=
  ⟨by decide, by decide!, by decide!⟩

/-- C12, amended: a row too short for its required fields makes the parser fail as a
whole, and no record is made from it: `parseSpendingCSV` fails when some row after the
header has fewer than 3 fields, `parseIncomeCSV` when some row has fewer than 2 fields;
whenever a parser returns records, there is one per row and every row is long enough. -/
theorem short_row_fails (parseFloat : String → Option float64) :
    (∀ header rows, (∃ row ∈ rows, row.length < 3) →
      ∃ e, parseSpendingCSV parseFloat (header :: rows) = .error e) ∧
    (∀ rows, (∃ row ∈ rows, row.length < 2) → ∃ e, parseIncomeCSV rows = .error e) ∧
    (∀ header rows payments, parseSpendingCSV parseFloat (header :: rows) = .ok payments →
      payments.length = rows.length ∧ ∀ row ∈ rows, 3 ≤ row.length) ∧
    (∀ rows groups, parseIncomeCSV rows = .ok groups →
      groups.length = rows.length ∧ ∀ row ∈ rows, 2 ≤ row.length) := by
  have hs : ∀ (header : List String) (rows : List (List String)) (payments : List payment),
      parseSpendingCSV parseFloat (header :: rows) = .ok payments →
      payments.length = rows.length ∧ ∀ row ∈ rows, 3 ≤ row.length := by
    intro header rows payments h
    have := parseSpendingLoop_rows_long parseFloat rows [] payments h
    simpa using this
  have hi : ∀ (rows : List (List String)) (groups : List paymentGroup),
      parseIncomeCSV rows = .ok groups →
      groups.length = rows.length ∧ ∀ row ∈ rows, 2 ≤ row.length := by
    intro rows groups h
    have := parseIncomeLoop_rows_long rows [] groups h
    simpa using this
  refine ⟨?_, ?_, hs, hi⟩
  · rintro header rows ⟨row, hrow, hlen⟩
    cases hres : parseSpendingCSV parseFloat (header :: rows) with
    | error e => exact ⟨e, rfl⟩
    | ok payments =>
      have := (hs header rows payments hres).2 row hrow
      omega
  · rintro rows ⟨row, hrow, hlen⟩
    cases hres : parseIncomeCSV rows with
    | error e => exact ⟨e, rfl⟩
    | ok groups =>
      have := (hi rows groups hres).2 row hrow
      omega

/-- Witness of the amended C12: a spending file of two columns and an income file of one
column; every row of each has the same number of fields. -/
theorem short_row_fails_witness :
    (∃ e, parseSpendingCSV ParseFloat (["date", "cost"] :: [["2024-01-01", "10.00"]])
      = .error e) ∧
    (∃ e, parseIncomeCSV [["Salary"], ["Bonus"]] = .error e) ∧
    parseSpendingCSV ParseFloat [["date", "cost"], ["2024-01-01", "10.00"]]
      = .error (.indexOutOfRange 2 2) ∧
    parseIncomeCSV [["Salary"], ["Bonus"]] = .error (.indexOutOfRange 1 1) :=
  ⟨(short_row_fails ParseFloat).1 ["date", "cost"] [["2024-01-01", "10.00"]]
      ⟨["2024-01-01", "10.00"], by simp, by decide⟩,
   (short_row_fails ParseFloat).2.1 [["Salary"], ["Bonus"]]
      ⟨["Bonus"], by simp, by decide⟩,
   by decide!, by decide!⟩

/-- C13: the code at the empty row list.  The slice expression `csv[1:]` needs one row,
so `parseSpendingCSV` of no row at all ends in its run-time panic, for every parser of
costs; `parseIncomeCSV` of no row returns no group, and `parseSpendingCSV` of the header
row alone returns no record. -/
theorem parseSpendingCSV_no_rows (parseFloat : String → Option float64) :
    parseSpendingCSV parseFloat [] = .error (.sliceBounds 1 0) ∧
    parseSpendingCSV parseFloat [] ≠ .ok [] ∧
    parseIncomeCSV [] = .ok [] ∧
    (∀ header, parseSpendingCSV parseFloat [header] = .ok []) :=
  ⟨rfl, by simp [parseSpendingCSV], rfl, fun _ => rfl⟩

/-! ## The images of a failed run -/

/-- C14 as stated fails: with a spending file that parses and an income file whose
amount is `abc`, the run ends with the parse error of the income pipeline after
`committed-spending.png` has been written. -/
theorem main_partial_output_counterexample :
    main
      { files := fun path =>
          if path = "spending.csv" then
            .rows [["date", "cost", "category"], ["2024-01-01", "10.00", "Food"]]
          else if path = "income.csv" then .rows [["Salary", "abc"]]
          else .unreadable,
        parseFloat := ParseFloat,
        range := fun m => m,
        snapshot := fun _ _ => true,
        remove := fun _ => true }
      "spending.csv" "income.csv"
    = { images := [("committed-spending.png",
          [{ Name := "Food: £10.00", Value := .float (.ofInt 10),
             Label := some { Show := some false } }])],
        result := .error (.fatal "Error parsing cost") } := by
  decide!

/-- C14, amended: a run that fails in the spending pipeline (its file cannot be opened
or read, or `parseSpendingCSV` fails) has written no image; a run that fails in the
income pipeline has written no image but `committed-spending.png`, which is rendered
before the income file is opened, and it has written that one when the renderer wrote
it; in both cases the run ends with the fault of the pipeline, and
`income-breakdown.png` is written by no run that ends with such a fault. -/
theorem main_failure_images (w : World) (spendingFileLocation incomeFileLocation : String) :
    (∀ e, (openFile w.files spendingFileLocation).bind (parseSpendingCSV w.parseFloat)
        = .error e →
      main w spendingFileLocation incomeFileLocation = { images := [], result := .error e }) ∧
    (∀ payments e,
      (openFile w.files spendingFileLocation).bind (parseSpendingCSV w.parseFloat)
        = .ok payments →
      (openFile w.files incomeFileLocation).bind parseIncomeCSV = .error e →
      (main w spendingFileLocation incomeFileLocation).result = .error e ∧
      (main w spendingFileLocation incomeFileLocation).images =
        (if w.snapshot (spendingPieData (w.range (groupPaymentsByCategory payments)))
            "committed-spending.png" then
          [("committed-spending.png",
            spendingPieData (w.range (groupPaymentsByCategory payments)))]
        else [])) ∧
    (∀ e, (main w spendingFileLocation incomeFileLocation).result = .error e →
      e ≠ .fatal "Error removing committed-spending.html" →
      "income-breakdown.png" ∉
        (main w spendingFileLocation incomeFileLocation).images.map Prod.fst) := by
  refine ⟨?_, ?_, ?_⟩
  · intro e h
    unfold main
    cases ho : openFile w.files spendingFileLocation with
    | error e' =>
      rw [ho] at h
      simp only [Except.bind, Except.error.injEq] at h
      rw [h]
    | ok csv =>
      rw [ho] at h
      simp only [Except.bind] at h
      simp only [h]
  · intro payments e hs hi
    unfold main
    cases ho : openFile w.files spendingFileLocation with
    | error e' => rw [ho] at hs; simp [Except.bind] at hs
    | ok csv =>
      rw [ho] at hs
      simp only [Except.bind] at hs
      simp only [hs]
      cases hoi : openFile w.files incomeFileLocation with
      | error e' =>
        rw [hoi] at hi
        simp only [Except.bind, Except.error.injEq] at hi
        rw [hi]
        simp
      | ok icsv =>
        rw [hoi] at hi
        simp only [Except.bind] at hi
        simp only [hi]
        simp
  · intro e hres hne
    unfold main at hres ⊢
    cases ho : openFile w.files spendingFileLocation with
    | error e' => simp
    | ok csv =>
      simp only [ho] at hres ⊢
      cases hp : parseSpendingCSV w.parseFloat csv with
      | error e' => simp
      | ok payments =>
        simp only [hp] at hres ⊢
        cases hoi : openFile w.files incomeFileLocation with
        | error e' => simp only [hoi]; split <;> simp
        | ok icsv =>
          simp only [hoi] at hres ⊢
          cases hpi : parseIncomeCSV icsv with
          | error e' => simp only [hpi]; split <;> simp
          | ok groups =>
            simp only [hpi] at hres
            by_cases hr : w.remove "committed-spending.html" = true
            · simp [hr] at hres
            · simp only [hr] at hres
              simp only [Bool.false_eq_true, if_false, Except.error.injEq] at hres
              exact absurd hres.symm hne

/-- Witness of the amended C14: an income file that cannot be opened, after a spending
file that parses. -/
theorem main_failure_images_witness :
    (main
      { files := fun path =>
          if path = "spending.csv" then
            .rows [["date", "cost", "category"], ["2024-01-01", "10.00", "Food"]]
          else .unreadable,
        parseFloat := ParseFloat,
        range := fun m => m,
        snapshot := fun _ _ => true,
        remove := fun _ => true }
      "spending.csv" "income.csv").result = .error (.fatal "Error opening file") ∧
    "income-breakdown.png" ∉
      (main
        { files := fun path =>
            if path = "spending.csv" then
              .rows [["date", "cost", "category"], ["2024-01-01", "10.00", "Food"]]
            else .unreadable,
          parseFloat := ParseFloat,
          range := fun m => m,
          snapshot := fun _ _ => true,
          remove := fun _ => true }
        "spending.csv" "income.csv").images.map Prod.fst :=
  have hres : (main
      { files := fun path =>
          if path = "spending.csv" then
            .rows [["date", "cost", "category"], ["2024-01-01", "10.00", "Food"]]
          else .unreadable,
        parseFloat := ParseFloat,
        range := fun m => m,
        snapshot := fun _ _ => true,
        remove := fun _ => true }
      "spending.csv" "income.csv").result = .error (.fatal "Error opening file") := by decide!
  ⟨hres, (main_failure_images _ "spending.csv" "income.csv").2.2 _ hres (by decide)⟩

/-! ## Rounding in the totals -/

/-- C15 as stated fails: with the `float64` values of `1.10`, `2.20` and `5.00` as costs,
the total of `A` is not the `float64` value of `3.30`. -/
theorem order_preserving_sum_counterexample :
    ParseFloat "1.10" = some (.fin false (2476979795053773 * 2 ^ 1023)) ∧
    ParseFloat "2.20" = some (.fin false (2476979795053773 * 2 ^ 1024)) ∧
    ParseFloat "5.00" = some (.fin false (5 * 2 ^ 1074)) ∧
    ParseFloat "3.30" = some (.fin false (3715469692580659 * 2 ^ 1024)) ∧
    (groupPaymentsByCategory
      [⟨"A", .fin false (2476979795053773 * 2 ^ 1023)⟩,
       ⟨"A", .fin false (2476979795053773 * 2 ^ 1024)⟩,
       ⟨"B", .fin false (5 * 2 ^ 1074)⟩]).lookup "A"
      ≠ some (.fin false (3715469692580659 * 2 ^ 1024)) := by
  decide!

/-- C15, amended: aggregating `(A, 1.10), (A, 2.20), (B, 5.00)` yields the mapping of two
entries whose value for `A` is the `float64` sum of the values of `1.10` and `2.20`, that
is `3.3000000000000003`, one unit in the last place above the `float64` value of `3.30`
and printed `3.30` with two decimals, and whose value for `B` is `5.00`. -/
theorem order_preserving_sum :
    groupPaymentsByCategory
      [⟨"A", .fin false (2476979795053773 * 2 ^ 1023)⟩,
       ⟨"A", .fin false (2476979795053773 * 2 ^ 1024)⟩,
       ⟨"B", .fin false (5 * 2 ^ 1074)⟩]
      = [("A", .fin false (7430939385161319 * 2 ^ 1023)), ("B", .fin false (5 * 2 ^ 1074))] ∧
    float64.add (.fin false (2476979795053773 * 2 ^ 1023))
      (.fin false (2476979795053773 * 2 ^ 1024)) = .fin false (7430939385161319 * 2 ^ 1023) ∧
    ParseFloat "3.3000000000000003" = some (.fin false (7430939385161319 * 2 ^ 1023)) ∧
    7430939385161319 * 2 ^ 1023 = 3715469692580659 * 2 ^ 1024 + 2 ^ 1023 ∧
    float64.excess (3715469692580659 * 2 ^ 1024) = 1023 ∧
    fmtF2 (.fin false (7430939385161319 * 2 ^ 1023)) = "3.30" ∧
    ParseFloat "1.10" = some (.fin false (2476979795053773 * 2 ^ 1023)) ∧
    ParseFloat "2.20" = some (.fin false (2476979795053773 * 2 ^ 1024)) ∧
    ParseFloat "5.00" = some (.fin false (5 * 2 ^ 1074)) := by
  decide!

/-! ## The fields read -/

theorem index_congr (row row' : List String) (i : Nat) (h : row[i]? = row'[i]?)
    (hlen : row.length = row'.length) : index row i = index row' i := by
  unfold index
  rw [h, hlen]

theorem parseSpendingLoop_congr (parseFloat : String → Option float64)
    (rows rows' : List (List String))
    (h : List.Forall₂ (fun row row' => 3 ≤ row.length ∧ 3 ≤ row'.length ∧
      row[1]? = row'[1]? ∧ row[2]? = row'[2]?) rows rows')
    (payments : List payment) :
    parseSpendingLoop parseFloat payments rows = parseSpendingLoop parseFloat payments rows' := by
  induction h generalizing payments with
  | nil => rfl
  | @cons row row' rest rest' hhead _ ih =>
    obtain ⟨hlen, hlen', h1, h2⟩ := hhead
    obtain ⟨f1, hf1, hi1⟩ := index_lt row 1 (by omega)
    obtain ⟨f2, hf2, hi2⟩ := index_lt row 2 (by omega)
    have hi1' : index row' 1 = .ok f1 := index_ok row' 1 f1 (by rw [← h1]; exact hf1)
    have hi2' : index row' 2 = .ok f2 := index_ok row' 2 f2 (by rw [← h2]; exact hf2)
    simp only [parseSpendingLoop, hi1, hi2, hi1', hi2']
    cases parseFloat f1 with
    | none => rfl
    | some cost => exact ih _

theorem length_eq_of_fields (row row' : List String)
    (h0 : row[0]? = row'[0]?) (h1 : row[1]? = row'[1]?) (hshort : row[1]? = none) :
    row.length = row'.length := by
  have hl : row.length ≤ 1 := List.getElem?_eq_none_iff.mp hshort
  have hl' : row'.length ≤ 1 := List.getElem?_eq_none_iff.mp (h1 ▸ hshort)
  cases row with
  | nil =>
    cases row' with
    | nil => rfl
    | cons a as => simp at h0
  | cons a as =>
    cases row' with
    | nil => simp at h0
    | cons b bs =>
      simp only [List.length_cons] at hl hl' ⊢
      omega

theorem parseIncomeLoop_congr (rows rows' : List (List String))
    (h : List.Forall₂ (fun row row' => row[0]? = row'[0]? ∧ row[1]? = row'[1]?) rows rows')
    (groups : List paymentGroup) :
    parseIncomeLoop groups rows = parseIncomeLoop groups rows' := by
  induction h generalizing groups with
  | nil => rfl
  | @cons row row' rest rest' hhead _ ih =>
    obtain ⟨h0, h1⟩ := hhead
    cases hf : row[1]? with
    | none =>
      have hlen := length_eq_of_fields row row' h0 h1 hf
      have e1 : index row 1 = .error (.indexOutOfRange 1 row.length) :=
        index_error row 1 (List.getElem?_eq_none_iff.mp hf)
      have e1' : index row' 1 = .error (.indexOutOfRange 1 row.length) := by
        rw [hlen]
        exact index_error row' 1 (List.getElem?_eq_none_iff.mp (h1 ▸ hf))
      simp only [parseIncomeLoop, e1, e1']
    | some f1 =>
      have hl := length_of_getElem? row 1 f1 hf
      have hl' := length_of_getElem? row' 1 f1 (h1 ▸ hf)
      obtain ⟨f0, hf0, hi0⟩ := index_lt row 0 (by omega)
      have hi0' : index row' 0 = .ok f0 := index_ok row' 0 f0 (by rw [← h0]; exact hf0)
      simp only [parseIncomeLoop, index_ok row 1 f1 hf, index_ok row' 1 f1 (h1 ▸ hf), hi0, hi0']
      cases ParseInt f1 32 with
      | error e => rfl
      | ok amount => exact ih _

theorem forall₂_map_right {α : Type} (R : α → α → Prop) (f : α → α) (xs : List α)
    (h : ∀ x ∈ xs, R x (f x)) : List.Forall₂ R xs (xs.map f) := by
  induction xs with
  | nil => exact List.Forall₂.nil
  | cons x xs ih =>
    exact List.Forall₂.cons (h x (List.mem_cons_self _ _))
      (ih (fun y hy => h y (List.mem_cons_of_mem _ hy)))

/-- C16: only the required fields are read.  Two spending inputs whose rows after the
first pair up, each with at least 3 fields and with equal fields 1 and 2, give the same
result, whatever their first rows, fields 0 and fields past index 2; two income inputs
whose rows pair up with equal fields 0 and 1 give the same result.  So fields added at
the end of rows change no result. -/
theorem parsers_read_required_fields (parseFloat : String → Option float64) :
    (∀ header header' rows rows',
      List.Forall₂ (fun row row' => 3 ≤ row.length ∧ 3 ≤ row'.length ∧
        row[1]? = row'[1]? ∧ row[2]? = row'[2]?) rows rows' →
      parseSpendingCSV parseFloat (header :: rows)
        = parseSpendingCSV parseFloat (header' :: rows')) ∧
    (∀ rows rows',
      List.Forall₂ (fun row row' => row[0]? = row'[0]? ∧ row[1]? = row'[1]?) rows rows' →
      parseIncomeCSV rows = parseIncomeCSV rows') ∧
    (∀ header rows (extra : List String), (∀ row ∈ rows, 3 ≤ row.length) →
      parseSpendingCSV parseFloat (header :: rows.map (fun row => row ++ extra))
        = parseSpendingCSV parseFloat (header :: rows)) ∧
    (∀ rows (extra : List String), (∀ row ∈ rows, 2 ≤ row.length) →
      parseIncomeCSV (rows.map (fun row => row ++ extra)) = parseIncomeCSV rows) := by
  refine ⟨?_, ?_, ?_, ?_⟩
  · intro header header' rows rows' h
    exact parseSpendingLoop_congr parseFloat rows rows' h []
  · intro rows rows' h
    exact parseIncomeLoop_congr rows rows' h []
  · intro header rows extra hlen
    symm
    apply parseSpendingLoop_congr parseFloat rows _ _ []
    apply forall₂_map_right
    intro row hrow
    have := hlen row hrow
    refine ⟨this, by rw [List.length_append]; omega, ?_, ?_⟩
    · rw [List.getElem?_append_left (by omega)]
    · rw [List.getElem?_append_left (by omega)]
  · intro rows extra hlen
    symm
    apply parseIncomeLoop_congr rows _ _ []
    apply forall₂_map_right
    intro row hrow
    have := hlen row hrow
    refine ⟨?_, ?_⟩
    · rw [List.getElem?_append_left (by omega)]
    · rw [List.getElem?_append_left (by omega)]

/-- Witness of C16: another header, another field 0 and a trailing field leave the
result as it is, and rows with a trailing field are accepted. -/
theorem parsers_read_required_fields_witness :
    parseSpendingCSV ParseFloat (["date", "cost", "category"] :: [["2024-01-01", "10.00", "Food"]])
      = parseSpendingCSV ParseFloat (["x"] :: [["", "10.00", "Food", "note"]]) ∧
    parseSpendingCSV ParseFloat [["x"], ["", "10.00", "Food", "note"]]
      = .ok [{ category := "Food", cost := float64.ofInt 10 }] ∧
    parseIncomeCSV ([["Salary", "2000"]].map (fun row => row ++ ["note", "more"]))
      = parseIncomeCSV [["Salary", "2000"]] ∧
    parseIncomeCSV [["Salary", "2000", "note", "more"]]
      = .ok [{ category := "Salary", cost := 2000 }] :=
  ⟨(parsers_read_required_fields ParseFloat).1 _ _ _ _
      (List.Forall₂.cons ⟨by decide, by decide, rfl, rfl⟩ List.Forall₂.nil),
   by decide!,
   (parsers_read_required_fields ParseFloat).2.2.2 [["Salary", "2000"]] ["note", "more"]
      (by intro row hrow; rw [List.mem_singleton] at hrow; subst hrow; decide),
   by decide!⟩

/-! ## The message of a parse error -/

/-- C17 as stated fails: the cost `abc` and the amount `abc` do not parse, and the
message of the fault that ends the run, `Error parsing cost`, does not contain `abc`. -/
theorem parse_error_message_counterexample :
    ParseFloat "abc" = none ∧
    parseSpendingCSV ParseFloat [["date", "cost", "category"], ["2024-01-01", "abc", "Food"]]
      = .error (.fatal "Error parsing cost") ∧
    ParseInt "abc" 32 = .error .ErrSyntax ∧
    parseIncomeCSV [["Salary", "abc"]] = .error (.fatal "Error parsing cost") ∧
    ¬ ("abc".toList <:+: "Error parsing cost".toList) := by
  decide!

/-- C17, amended: when a numeric field fails to parse, the fault reported carries the
fixed message `Error parsing cost`, whatever the offending value `s`: so it is for a
spending row with cost field `s` after rows of at least 3 fields, and for an income row
with amount field `s` after rows of at least 2 fields. -/
theorem parse_error_message (parseFloat : String → Option float64) :
    (∀ header before field0 s rest after,
      (∀ row ∈ before, 3 ≤ row.length) → parseFloat s = none →
      parseSpendingCSV parseFloat (header :: (before ++ (field0 :: s :: rest) :: after))
        = .error (.fatal "Error parsing cost")) ∧
    (∀ before field0 s rest after e,
      (∀ row ∈ before, 2 ≤ row.length) → ParseInt s 32 = .error e →
      parseIncomeCSV (before ++ (field0 :: s :: rest) :: after)
        = .error (.fatal "Error parsing cost")) :=
  ⟨fun _ before field0 s rest after hb hs =>
      parseSpendingLoop_fatal parseFloat before (field0 :: s :: rest) after [] s hb (by simp) hs,
   fun before field0 s rest after e hb hs =>
      parseIncomeLoop_fatal before (field0 :: s :: rest) after [] s e hb (by simp) hs⟩

/-- Witness of the amended C17: two offending values, one message. -/
theorem parse_error_message_witness :
    parseSpendingCSV ParseFloat
      (["date", "cost", "category"] :: ([] ++ ("2024-01-01" :: "abc" :: ["Food"]) :: []))
      = .error (.fatal "Error parsing cost") ∧
    parseSpendingCSV ParseFloat
      (["date", "cost", "category"] :: ([] ++ ("2024-01-01" :: "12,50" :: ["Food"]) :: []))
      = .error (.fatal "Error parsing cost") ∧
    parseIncomeCSV ([] ++ ("Salary" :: "2000.5" :: []) :: [])
      = .error (.fatal "Error parsing cost") :=
  ⟨(parse_error_message ParseFloat).1 _ [] "2024-01-01" "abc" ["Food"] []
      (fun _ h => absurd h (List.not_mem_nil _)) (by decide!),
   (parse_error_message ParseFloat).1 _ [] "2024-01-01" "12,50" ["Food"] []
      (fun _ h => absurd h (List.not_mem_nil _)) (by decide!),
   (parse_error_message ParseFloat).2 [] "Salary" "2000.5" [] [] .ErrSyntax
      (fun _ h => absurd h (List.not_mem_nil _)) (by decide!)⟩

/-! ## Interleaving and labels -/

theorem GoMap.mem_iff_lookup (m : GoMap) (hnd : m.keys.Nodup) (k : String) (v : float64) :
    (k, v) ∈ m ↔ m.lookup k = some v := by
  induction m with
  | nil => simp [GoMap.lookup]
  | cons e rest ih =>
    obtain ⟨k', v'⟩ := e
    have hnd' : (k' ∉ GoMap.keys rest) ∧ (GoMap.keys rest).Nodup := by
      simpa [GoMap.keys] using hnd
    have ih' := ih hnd'.2
    by_cases hk : k' = k
    · subst hk
      have hnot : (k', v) ∉ rest := by
        intro hmem
        exact hnd'.1 (List.mem_map.mpr ⟨(k', v), hmem, rfl⟩)
      simp only [List.mem_cons, Prod.mk.injEq, true_and, GoMap.lookup, if_true, Option.some.injEq,
        hnot, or_false]
      exact eq_comm
    · have hk' : ¬ (k = k') := fun e => hk e.symm
      simp only [List.mem_cons, Prod.mk.injEq, hk', false_and, false_or, GoMap.lookup, hk, if_false]
      exact ih'

theorem GoMap.perm_of_lookup_eq (m m' : GoMap) (hnd : m.keys.Nodup) (hnd' : m'.keys.Nodup)
    (h : ∀ k, m.lookup k = m'.lookup k) : m.Perm m' := by
  apply (List.perm_ext_iff_of_nodup (List.Nodup.of_map _ hnd) (List.Nodup.of_map _ hnd')).mpr
  rintro ⟨k, v⟩
  rw [GoMap.mem_iff_lookup m hnd, GoMap.mem_iff_lookup m' hnd', h k]

/-- C18: the mapping returned by `groupPaymentsByCategory` depends only on the
subsequences of the input taken category by category: two inputs with the same records
of each category, in the same relative order, give the same value for every key, and so
the same entries.  No property of the addition is used. -/
theorem groupPaymentsByCategory_interleaving (xs ys : List payment)
    (h : ∀ c, xs.filter (fun p => p.category = c) = ys.filter (fun p => p.category = c)) :
    (∀ c, (groupPaymentsByCategory xs).lookup c = (groupPaymentsByCategory ys).lookup c) ∧
    (groupPaymentsByCategory xs).Perm (groupPaymentsByCategory ys) ∧
    (∀ c, c ∈ (groupPaymentsByCategory xs).keys ↔ c ∈ (groupPaymentsByCategory ys).keys) := by
  have hl : ∀ c, (groupPaymentsByCategory xs).lookup c
      = (groupPaymentsByCategory ys).lookup c := by
    intro c
    unfold groupPaymentsByCategory
    rw [lookup_foldl_groupStep, lookup_foldl_groupStep, h c]
  have hp : (groupPaymentsByCategory xs).Perm (groupPaymentsByCategory ys) :=
    GoMap.perm_of_lookup_eq _ _ (keys_foldl_groupStep_nodup xs [] List.nodup_nil)
      (keys_foldl_groupStep_nodup ys [] List.nodup_nil) hl
  refine ⟨hl, hp, ?_⟩
  intro c
  exact (List.Perm.map Prod.fst hp).mem_iff

/-- Witness of C18: the record of `B` moved in front of the records of `A`; the costs
are such that the order of the additions of `A` matters. -/
theorem groupPaymentsByCategory_interleaving_witness :
    (∀ c, [(⟨"A", .ofInt (2 ^ 53)⟩ : payment), ⟨"B", .ofInt 1⟩, ⟨"A", .ofInt 1⟩,
          ⟨"A", .ofInt 1⟩].filter (fun p => p.category = c)
        = [(⟨"B", .ofInt 1⟩ : payment), ⟨"A", .ofInt (2 ^ 53)⟩, ⟨"A", .ofInt 1⟩,
          ⟨"A", .ofInt 1⟩].filter (fun p => p.category = c)) ∧
    (groupPaymentsByCategory
        [⟨"A", .ofInt (2 ^ 53)⟩, ⟨"B", .ofInt 1⟩, ⟨"A", .ofInt 1⟩, ⟨"A", .ofInt 1⟩]).Perm
      (groupPaymentsByCategory
        [⟨"B", .ofInt 1⟩, ⟨"A", .ofInt (2 ^ 53)⟩, ⟨"A", .ofInt 1⟩, ⟨"A", .ofInt 1⟩]) ∧
    groupPaymentsByCategory
        [⟨"A", .ofInt (2 ^ 53)⟩, ⟨"B", .ofInt 1⟩, ⟨"A", .ofInt 1⟩, ⟨"A", .ofInt 1⟩]
      = [("A", .ofInt (2 ^ 53)), ("B", .ofInt 1)] ∧
    groupPaymentsByCategory
        [⟨"B", .ofInt 1⟩, ⟨"A", .ofInt (2 ^ 53)⟩, ⟨"A", .ofInt 1⟩, ⟨"A", .ofInt 1⟩]
      = [("B", .ofInt 1), ("A", .ofInt (2 ^ 53))] :=
  have hsame : ∀ c, [(⟨"A", .ofInt (2 ^ 53)⟩ : payment), ⟨"B", .ofInt 1⟩, ⟨"A", .ofInt 1⟩,
        ⟨"A", .ofInt 1⟩].filter (fun p => p.category = c)
      = [(⟨"B", .ofInt 1⟩ : payment), ⟨"A", .ofInt (2 ^ 53)⟩, ⟨"A", .ofInt 1⟩,
        ⟨"A", .ofInt 1⟩].filter (fun p => p.category = c) := by
    intro c
    by_cases ha : "A" = c
    · subst ha
      decide!
    · by_cases hb : "B" = c
      · subst hb
        decide!
      · simp [List.filter, ha, hb]
  ⟨hsame, (groupPaymentsByCategory_interleaving _ _ hsame).2.1, by decide!, by decide!⟩

theorem digitChar_ne_pound (d : Nat) (hd : d < 10) : Nat.digitChar d ≠ '£' := by
  interval_cases d <;> decide

theorem toDigitsCore_no_pound (fuel n : Nat) (ds : List Char) (hds : '£' ∉ ds) :
    '£' ∉ Nat.toDigitsCore 10 fuel n ds := by
  induction fuel generalizing n ds with
  | zero => simpa [Nat.toDigitsCore] using hds
  | succ fuel ih =>
    have hcons : '£' ∉ Nat.digitChar (n % 10) :: ds := by
      intro hmem
      rcases List.mem_cons.mp hmem with e | hmem
      · exact digitChar_ne_pound (n % 10) (Nat.mod_lt n (by decide)) e.symm
      · exact hds hmem
    unfold Nat.toDigitsCore
    simp only
    split
    · exact hcons
    · exact ih _ _ hcons

theorem repr_no_pound (n : Nat) : '£' ∉ (Nat.repr n).toList := by
  show '£' ∉ Nat.toDigitsCore 10 (n + 1) n []
  exact toDigitsCore_no_pound _ _ [] (List.not_mem_nil _)

/-- No number printed by `%.2f` contains the pound sign. -/
theorem fmtF2_no_pound (t : float64) : '£' ∉ (fmtF2 t).toList := by
  cases t with
  | nan => decide
  | inf neg => cases neg <;> decide
  | fin neg n =>
    unfold fmtF2
    have h1 := repr_no_pound (hundredths n / 100)
    have h2 := repr_no_pound (hundredths n / 10 % 10)
    have h3 := repr_no_pound (hundredths n % 10)
    have hsign : '£' ∉ (if neg = true then "-" else "").toList := by
      cases neg <;> decide
    have hdot : '£' ∉ ".".toList := by decide
    simp only [String.toList, String.data_append, List.mem_append, not_or] at *
    exact ⟨⟨⟨⟨hsign, h1⟩, hdot⟩, h2⟩, h3⟩

theorem split_at_last (x : Char) (l₁ l₂ r₁ r₂ : List Char) (h₁ : x ∉ r₁) (h₂ : x ∉ r₂)
    (h : l₁ ++ x :: r₁ = l₂ ++ x :: r₂) : l₁ = l₂ ∧ r₁ = r₂ := by
  induction l₁ generalizing l₂ with
  | nil =>
    cases l₂ with
    | nil => simpa using h
    | cons b l₂ =>
      simp only [List.nil_append, List.cons_append, List.cons.injEq] at h
      exact absurd (h.2 ▸ List.mem_append_right l₂ (List.mem_cons_self x r₂)) h₁
  | cons a l₁ ih =>
    cases l₂ with
    | nil =>
      simp only [List.nil_append, List.cons_append, List.cons.injEq] at h
      exact absurd (h.2 ▸ List.mem_append_right l₁ (List.mem_cons_self x r₁)) h₂
    | cons b l₂ =>
      simp only [List.cons_append, List.cons.injEq] at h
      obtain ⟨hl, hr⟩ := ih l₂ h.2
      exact ⟨by rw [h.1, hl], hr⟩

/-- A label determines its category and its number. -/
theorem label_injective (c₁ c₂ : String) (t₁ t₂ : float64)
    (h : c₁ ++ ": £" ++ fmtF2 t₁ = c₂ ++ ": £" ++ fmtF2 t₂) :
    c₁ = c₂ ∧ fmtF2 t₁ = fmtF2 t₂ := by
  have hd := congrArg String.toList h
  simp only [String.toList, String.data_append] at hd
  have hd' : (c₁.data ++ [':', ' ']) ++ '£' :: (fmtF2 t₁).data
      = (c₂.data ++ [':', ' ']) ++ '£' :: (fmtF2 t₂).data := by
    simpa [List.append_assoc] using hd
  obtain ⟨hl, hr⟩ := split_at_last '£' _ _ _ _ (fmtF2_no_pound t₁) (fmtF2_no_pound t₂) hd'
  exact ⟨String.ext (List.append_cancel_right hl), String.ext hr⟩

/-- C19: the labels of a spending series never collide: a label determines its category
(the number after the last `£` holds no `£`), so two elements that come from different
categories have different labels, and the series of a mapping has as many distinct
labels as the mapping has categories. -/
theorem spendingPieData_labels_distinct (m : GoMap) (visited : List (String × float64))
    (hm : m.keys.Nodup) (hv : m.IsRange visited) :
    ((spendingPieData visited).map PieData.Name).Nodup ∧
    ((spendingPieData visited).map PieData.Name).toFinset.card = m.keys.length ∧
    (∀ c₁ t₁ c₂ t₂, c₁ ≠ c₂ → c₁ ++ ": £" ++ fmtF2 t₁ ≠ c₂ ++ ": £" ++ fmtF2 t₂) ∧
    (∀ t, '£' ∉ (fmtF2 t).toList) := by
  have hnames : (spendingPieData visited).map PieData.Name
      = visited.map (fun e => e.1 ++ ": £" ++ fmtF2 e.2) := by
    rw [spendingPieData_eq_map, List.map_map]
    rfl
  have hvk : (GoMap.keys visited).Nodup := (List.Perm.map Prod.fst hv).nodup_iff.mpr hm
  have hnd : ((spendingPieData visited).map PieData.Name).Nodup := by
    rw [hnames]
    apply List.Nodup.map_on _ (List.Nodup.of_map _ hvk)
    rintro ⟨c₁, t₁⟩ h₁ ⟨c₂, t₂⟩ h₂ hlabel
    obtain ⟨hc, _⟩ := label_injective c₁ c₂ t₁ t₂ hlabel
    subst hc
    have e₁ := (GoMap.mem_iff_lookup visited hvk c₁ t₁).mp h₁
    have e₂ := (GoMap.mem_iff_lookup visited hvk c₁ t₂).mp h₂
    rw [e₁] at e₂
    cases e₂
    rfl
  refine ⟨hnd, ?_, ?_, fmtF2_no_pound⟩
  · rw [List.toFinset_card_of_nodup hnd, List.length_map, spendingPieData_eq_map,
      List.length_map]
    simp only [GoMap.keys, List.length_map]
    exact List.Perm.length_eq hv
  · intro c₁ t₁ c₂ t₂ hne hlabel
    exact hne (label_injective c₁ c₂ t₁ t₂ hlabel).1

/-- Witness of C19: a category that itself ends like a label. -/
theorem spendingPieData_labels_distinct_witness :
    (GoMap.keys [("Food", float64.ofInt 1), ("Food: £1.00", float64.ofInt 1)]).Nodup ∧
    GoMap.IsRange [("Food", float64.ofInt 1), ("Food: £1.00", float64.ofInt 1)]
      [("Food", float64.ofInt 1), ("Food: £1.00", float64.ofInt 1)] ∧
    ((spendingPieData [("Food", float64.ofInt 1), ("Food: £1.00", float64.ofInt 1)]).map
      PieData.Name).Nodup ∧
    (spendingPieData [("Food", float64.ofInt 1), ("Food: £1.00", float64.ofInt 1)]).map
      PieData.Name = ["Food: £1.00", "Food: £1.00: £1.00"] :=
  ⟨by decide, List.Perm.refl _,
    (spendingPieData_labels_distinct _ _ (by decide) (List.Perm.refl _)).1, by decide!⟩

end ChartGenerator
